import Mathlib

/-!
# divinity: target enumeration, credential resolution and probe dispatch

A shallow embedding of `divinity.go` (package `main`) and `src/tcp/handler.go`
(package `tcp`).

Conventions of the embedding.

* A Go `string` is a Lean `String`, read as its sequence of characters.
* Package-level configuration (`Conf`, `Username`, `Port`, ...) is passed explicitly
  as a value of `Options`.
* A goroutine body followed by `wg.Wait()` is run in place; calls that leave the
  two files (`SSHPreflight`, `TelnetPreflight`, `println`, `filewrite`, `log.Println`)
  are recorded, in order, as events.
* Regular expressions are terms of `RE`; `MatchString` is the unanchored search of
  Go's `regexp` package.
-/

namespace Divinity

/-! ## Regular expressions (package `regexp`) -/

/-- Anchor-free regular expressions over characters. -/
inductive RE where
  | empty : RE
  | eps : RE
  | cls : (Char → Bool) → RE
  | seq : RE → RE → RE
  | alt : RE → RE → RE
  | star : RE → RE

namespace RE

/-- Whether the expression accepts the empty text. -/
def nullable : RE → Bool
  | empty => false
  | eps => true
  | cls _ => false
  | seq a b => nullable a && nullable b
  | alt a b => nullable a || nullable b
  | star _ => true

/-- Brzozowski derivative with respect to one character. -/
def deriv (c : Char) : RE → RE
  | empty => empty
  | eps => empty
  | cls p => if p c then eps else empty
  | seq a b => if nullable a then alt (seq (deriv c a) b) (deriv c b) else seq (deriv c a) b
  | alt a b => alt (deriv c a) (deriv c b)
  | star a => seq (deriv c a) (star a)

/-- Whole-text match, by successive derivatives. -/
def rmatch : RE → List Char → Bool
  | r, [] => nullable r
  | r, c :: cs => rmatch (deriv c r) cs

/-- The set of texts an expression denotes. -/
def denote : RE → List Char → Prop
  | empty, _ => False
  | eps, s => s = []
  | cls p, s => ∃ c, s = [c] ∧ p c = true
  | seq a b, s => ∃ x y, s = x ++ y ∧ denote a x ∧ denote b y
  | alt a b, s => denote a s ∨ denote b s
  | star a, s => ∃ L : List (List Char), s = L.flatten ∧ ∀ y ∈ L, denote a y

/-- The expression `x+`. -/
def plus (r : RE) : RE := seq r (star r)

/-- The expression `x?`. -/
def opt (r : RE) : RE := alt r eps

/-- The expression `x{1,n+1}`. -/
def rep1 (r : RE) : Nat → RE
  | 0 => r
  | n + 1 => seq r (opt (rep1 r n))

/-- A single literal character. -/
def chr (c : Char) : RE := cls (fun x => x == c)

/-- A literal run of characters. -/
def lit : List Char → RE
  | [] => eps
  | c :: cs => seq (chr c) (lit cs)

/-- The class `.`: any character but a line feed. -/
def dot : RE := cls (fun x => x != '\n')

/-- Any character at all; the padding of an unanchored search. -/
def anyChar : RE := cls (fun _ => true)

/-- The class `[0-9]`. -/
def digit : RE := cls (fun x => decide ('0' ≤ x ∧ x ≤ '9'))

/-- A two-character class such as `[Ll]`. -/
def oneOf (cs : List Char) : RE := cls (fun x => cs.contains x)

end RE

/-- A compiled pattern: an anchor-free body with optional `^` in front and `$` behind. -/
structure Regexp where
  bol : Bool
  body : RE
  eol : Bool

/-- Go `(*Regexp).MatchString`: does some substring of the text match?  Without `^` the
match may start anywhere, without `$` it may end anywhere. -/
def Regexp.MatchString (re : Regexp) (s : String) : Bool :=
  RE.rmatch
    (RE.seq (if re.bol then RE.eps else RE.star RE.anyChar)
      (RE.seq re.body (if re.eol then RE.eps else RE.star RE.anyChar)))
    s.data

/-! ## Package `strings` -/

/-- The pieces of a text between occurrences of a separator character. -/
def splitChars (sep : Char) : List Char → List (List Char)
  | [] => [[]]
  | c :: cs =>
    if c = sep then [] :: splitChars sep cs
    else
      match splitChars sep cs with
      | [] => [[c]]
      | p :: ps => (c :: p) :: ps

/-- Go `strings.Split(s, sep)` for a separator of one character, the only kind the
program passes (`":"` and `" "`). -/
def Split (s : String) (sep : Char) : List String :=
  (splitChars sep s.data).map String.mk

/-- Go `strings.Replace(s, old, "", -1)` for `old` of one character: every occurrence
is removed. -/
def Replace (s : String) (old : Char) : String :=
  String.mk (s.data.filter (fun c => c != old))

/-- Whether `sub` occurs in `s` starting at some position. -/
def containsChars (sub : List Char) : List Char → Bool
  | [] => sub.isEmpty
  | c :: cs => sub.isPrefixOf (c :: cs) || containsChars sub cs

/-- Go `strings.Contains(s, substr)`. -/
def Contains (s substr : String) : Bool := containsChars substr.data s.data

/-! ## Configuration (package `config`, read through `Conf`) -/

/-- The parsed command-line options the two files read. -/
structure Options where
  Protocol : String
  Port : String
  Path : String
  Method : String
  BasicAuth : String
  ContentType : String
  HeaderName : String
  HeaderValue : String
  Data : String
  Success : String
  Alert : String
  OutputFile : String
  Credentials : String
  Username : String
  Password : String
  SSH : Bool
  Telnet : Bool

/-- All options empty, both protocol flags off. -/
def Options.blank : Options :=
  ⟨"", "", "", "", "", "", "", "", "", "", "", "", "", "", "", false, false⟩

/-! ## `src/tcp/handler.go` -/

/-- The pattern `^:.+`. -/
def nouserRE : Regexp :=
  ⟨true, RE.seq (RE.chr ':') (RE.plus RE.dot), false⟩

/-- The pattern `.+:$`. -/
def nopassRE : Regexp :=
  ⟨false, RE.seq (RE.plus RE.dot) (RE.chr ':'), true⟩

/-- The pattern `.*([Ll]ogin)|([Uu]sername).*`. -/
def userRE : Regexp :=
  ⟨false,
    RE.alt
      (RE.seq (RE.star RE.dot) (RE.seq (RE.oneOf ['L', 'l']) (RE.lit "ogin".data)))
      (RE.seq (RE.seq (RE.oneOf ['U', 'u']) (RE.lit "sername".data)) (RE.star RE.dot)),
    false⟩

/-- The pattern `.*[Pp]assword.*`. -/
def passRE : Regexp :=
  ⟨false,
    RE.seq (RE.star RE.dot)
      (RE.seq (RE.oneOf ['P', 'p']) (RE.seq (RE.lit "assword".data) (RE.star RE.dot))),
    false⟩

/-- The pattern `.*[#\$>].*`. -/
def promptRE : Regexp :=
  ⟨false, RE.seq (RE.star RE.dot) (RE.seq (RE.oneOf ['#', '$', '>']) (RE.star RE.dot)), false⟩

/-- The pattern `.*(Using username)|([Pp]assword:)|([Dd]enied)|([Ii]ncorrect).*`. -/
def badRE : Regexp :=
  ⟨false,
    RE.alt (RE.seq (RE.star RE.dot) (RE.lit "Using username".data))
      (RE.alt (RE.seq (RE.oneOf ['P', 'p']) (RE.lit "assword:".data))
        (RE.alt (RE.seq (RE.oneOf ['D', 'd']) (RE.lit "enied".data))
          (RE.seq (RE.seq (RE.oneOf ['I', 'i']) (RE.lit "ncorrect".data)) (RE.star RE.dot)))),
    false⟩

/-- The pattern `[0-9]{1,3}`. -/
def digits13 : RE := RE.rep1 RE.digit 2

/-- The pattern
`[0-9]{1,3}\.[0-9]{1,3}\.[0-9]{1,3}\.[0-9]{1,3}(:[0-9]{1,5})?.*:?.*` of `doList`. -/
def listMatch : Regexp :=
  ⟨false,
    RE.seq digits13 (RE.seq (RE.chr '.')
      (RE.seq digits13 (RE.seq (RE.chr '.')
        (RE.seq digits13 (RE.seq (RE.chr '.')
          (RE.seq digits13
            (RE.seq (RE.opt (RE.seq (RE.chr ':') (RE.rep1 RE.digit 4)))
              (RE.seq (RE.star RE.dot)
                (RE.seq (RE.opt (RE.chr ':')) (RE.star RE.dot)))))))))),
    false⟩

/-- The shared tail of `GetCreds`: a split credential string with at least two pieces
gives a pair, fewer give nothing. -/
def credsOf (creds : List String) : Option (String × String) :=
  match creds with
  | c0 :: c1 :: _ =>
    if nouserRE.MatchString c0 then some ("", c1)
    else if nopassRE.MatchString c1 then some (c0, "")
    else some (c0, c1)
  | _ => none

/-- `GetCreds`: the user name and password for one target. -/
def GetCreds (conf : Options) (credString : String) : String × String :=
  if 0 < conf.Username.length ∨ 0 < conf.Password.length then
    (conf.Username, conf.Password)
  else
    match (if 0 < conf.Credentials.length then credsOf (Split conf.Credentials ':') else none) with
    | some r => r
    | none =>
      match credsOf (Split credString ':') with
      | some r => r
      | none => ("", "")

/-- `GetIPPort`: splits `ip:port`; a configured `Port` overrides the port of the line. -/
def GetIPPort (conf : Options) (connectionString : String) : String × String :=
  match Split connectionString ':' with
  | [ip, port] =>
    if 0 < conf.Port.length then (ip, conf.Port) else (ip, port)
  | hostString =>
    let ip := hostString.headD ""
    if 0 < conf.Port.length then (ip, conf.Port) else (ip, "")

/-- What handling one line does outside the file: a warning on the log, or one probe. -/
inductive Event where
  | log (msg : String)
  | SSHPreflight (hostString ip port user pass alert outputFile : String)
  | TelnetPreflight (hostString ip port user pass alert outputFile : String)
  deriving DecidableEq, Repr

/-- The anonymous function of `doList` that picks the host part and the credential
part of a line split at spaces. -/
def hostCred (connectionString : List String) : String × String :=
  match connectionString with
  | h :: c :: _ => (Replace h ' ', Replace c ' ')
  | _ => (connectionString.headD "", "")

/-- The body of the goroutine `doList` starts for one line. -/
def doLine (conf : Options) (line : String) : List Event :=
  if !listMatch.MatchString line then
    [Event.log ("string formatted incorrectly: " ++ line)]
  else
    let connectionString := Split line ' '
    let hostString := (hostCred connectionString).1
    let credString := (hostCred connectionString).2
    let ip := (GetIPPort conf hostString).1
    let port := (GetIPPort conf hostString).2
    let user := (GetCreds conf credString).1
    let pass := (GetCreds conf credString).2
    if conf.SSH || port == "22" then
      [Event.SSHPreflight hostString ip port user pass conf.Alert conf.OutputFile]
    else if conf.Telnet || port == "23" then
      [Event.TelnetPreflight hostString ip port user pass conf.Alert conf.OutputFile]
    else
      []

/-- `doList`: each line is handled to completion (`wg.Wait()` inside the loop) before
the next one starts. -/
def doList (conf : Options) : List String → List Event
  | [] => []
  | line :: lines => doLine conf line ++ doList conf lines

/-- The verdicts of the line classifier. -/
inductive Verdict where
  | loginPrompt
  | passwordPrompt
  | successPrompt
  | denial
  | unmatched
  deriving DecidableEq, Repr

/-- Modelled from the spec: the evaluation of an ordered table of rules against a line,
the first rule that matches giving the verdict; the code that applies the patterns is in
the SSH and Telnet probe files, which are not among the sources. -/
def firstMatch : List (Regexp × Verdict) → String → Verdict
  | [], _ => Verdict.unmatched
  | (re, verdict) :: rest, line =>
    if re.MatchString line then verdict else firstMatch rest line

/-- Modelled from the spec: the rule table of the line classifier, missing from the
sources like the classifier itself.  A match of the denial pattern short-circuits to
failure, so `badRE` stands first; the login, password and shell prompt detectors follow
in the order they are listed. -/
def rules : List (Regexp × Verdict) :=
  [(badRE, Verdict.denial), (userRE, Verdict.loginPrompt),
    (passRE, Verdict.passwordPrompt), (promptRE, Verdict.successPrompt)]

/-- Modelled from the spec: the line classifier of the SSH and Telnet probes, whose code
is not among the sources (only the patterns are): the first matching rule of `rules`. -/
def classify (line : String) : Verdict := firstMatch rules line

/-! ## `divinity.go`: the HTTP probe -/

/-- The alphabet of `base64.StdEncoding`. -/
def encodeStd : List Char :=
  "ABCDEFGHIJKLMNOPQRSTUVWXYZabcdefghijklmnopqrstuvwxyz0123456789+/".data

/-- The base64 digit of a six-bit value. -/
def b64 (n : Nat) : Char := encodeStd.getD n 'A'

/-- Base64 with `=` padding, over byte values. -/
def encodeBytes : List Nat → List Char
  | [] => []
  | [a] => [b64 (a / 4), b64 (a % 4 * 16), '=', '=']
  | [a, b] => [b64 (a / 4), b64 (a % 4 * 16 + b / 16), b64 (b % 16 * 4), '=']
  | a :: b :: c :: rest =>
    b64 (a / 4) :: b64 (a % 4 * 16 + b / 16) :: b64 (b % 16 * 4 + c / 64) :: b64 (c % 64) ::
      encodeBytes rest

/-- The bytes of a string, `[]byte(s)`: its UTF-8 encoding. -/
def bytesOf (s : String) : List Nat :=
  s.data.flatMap (fun c => (String.utf8EncodeChar c).map UInt8.toNat)

/-- Go `base64.StdEncoding.EncodeToString([]byte(s))`. -/
def EncodeToString (s : String) : String := String.mk (encodeBytes (bytesOf s))

/-- An HTTP request as `doLogin` builds it; `header` lists the fields set, latest
first. -/
structure Request where
  method : String
  url : String
  body : String
  header : List (String × String)
  deriving DecidableEq, Repr

/-- `req.Header.Set(key, value)`. -/
def Request.Set (req : Request) (key value : String) : Request :=
  { req with header := (key, value) :: req.header.filter (fun kv => kv.1 != key) }

/-- What comes of building and sending the request: `http.NewRequest` rejects the
method or URL, `client.Do` fails, or a response arrives, whose body
`ioutil.ReadAll` reads in full (`some`) or fails to read (`none`). -/
inductive Exchange where
  | invalid
  | failed
  | response (StatusCode : Int) (body : Option String)

/-- What `doLogin` does that is visible outside: lines on standard output
(`fmt.Println`), lines on standard error (the builtin `println`), appends to the output
file (`filewrite`), and a panic. -/
inductive Effect where
  | Println (s : String)
  | println (s : String)
  | filewrite (chunk outputFile : String)
  | panic
  deriving DecidableEq, Repr

/-- The request `doLogin` sends to `ip`. -/
def buildRequest (ip : String) (conf : Options) : Request :=
  let basicAuth := EncodeToString conf.BasicAuth
  let urlString := conf.Protocol ++ "://" ++ ip ++ ":" ++ conf.Port ++ conf.Path
  let req : Request := ⟨conf.Method, urlString, conf.Data, []⟩
  let req := if 0 < conf.HeaderName.length then req.Set conf.HeaderName conf.HeaderValue else req
  let req := if 0 < basicAuth.length then req.Set "Authorization" ("Basic " ++ basicAuth) else req
  if 0 < conf.ContentType.length then req.Set "Content-Type" conf.ContentType else req

/-- The report of a finding: the message on standard error, and in the output file
when one is configured. -/
def report (msg outputFile : String) : List Effect :=
  Effect.println msg :: (if 0 < outputFile.length then [Effect.filewrite msg outputFile] else [])

/-- `doLogin`: one HTTP request to `ip`, and a finding when the response counts as a
success; `client` is the network.  The lock and wait-group calls are left out. -/
def doLogin (ip : String) (conf : Options) (client : Request → Exchange) : List Effect :=
  let basicAuth := EncodeToString conf.BasicAuth
  let trying := Effect.Println ("Trying " ++ ip ++ " ...")
  match client (buildRequest ip conf) with
  | Exchange.invalid => [trying, Effect.panic]
  | Exchange.failed => [trying]
  | Exchange.response StatusCode body =>
    if StatusCode ≠ 200 then [trying]
    else
      match body with
      | none => [trying]
      | some bodyString =>
        if 0 < conf.Success.length then
          if Contains bodyString conf.Success then
            trying :: report (ip ++ "\t" ++ conf.Alert) conf.OutputFile
          else [trying]
        else if 0 < basicAuth.length then
          trying :: report (ip ++ "\t" ++ conf.Alert) conf.OutputFile
        else [trying]

/-- The findings among the effects: the lines written by `println`. -/
def findings : List Effect → List String
  | [] => []
  | Effect.println s :: es => s :: findings es
  | _ :: es => findings es

/-! ## Package `net`: IPv4 addresses, masks and networks -/

/-- Go `net.IP`: a slice of bytes; the nil slice is the empty list. -/
abbrev IP := List Nat

/-- Go `net.IPMask`. -/
abbrev IPMask := List Nat

/-- Go `net.IPNet`. -/
structure IPNet where
  IP : IP
  Mask : IPMask
  deriving DecidableEq, Repr

/-- The twelve bytes in front of an IPv4 address in its 16-byte form. -/
def v4InV6Prefix : List Nat := [0, 0, 0, 0, 0, 0, 0, 0, 0, 0, 0xff, 0xff]

/-- Go `net.IPv4(a, b, c, d)`: the 16-byte form of an IPv4 address. -/
def IPv4 (a b c d : Nat) : IP := v4InV6Prefix ++ [a, b, c, d]

/-- Go `IP.To4`: the 4-byte form, or nil when the address is not IPv4. -/
def To4 (ip : IP) : IP :=
  if ip.length = 4 then ip
  else if ip.length = 16 ∧ ip.take 12 = v4InV6Prefix then ip.drop 12
  else []

/-- The loop of `CIDRMask`: `l` mask bytes with `n` leading one bits. -/
def maskBytes : Nat → Nat → List Nat
  | 0, _ => []
  | l + 1, n =>
    if 8 ≤ n then 0xff :: maskBytes l (n - 8)
    else (0xff ^^^ (0xff >>> n)) :: maskBytes l 0

/-- Go `net.CIDRMask(ones, bits)`; nil unless `bits` is 32 or 128 and `ones ≤ bits`. -/
def CIDRMask (ones bits : Nat) : IPMask :=
  if bits ≠ 32 ∧ bits ≠ 128 then []
  else if bits < ones then []
  else maskBytes (bits / 8) ones

/-- Go `IP.Mask`: the byte-wise AND with the mask, after bringing both to one length;
nil when the lengths differ. -/
def Mask (ip : IP) (mask : IPMask) : IP :=
  let mask := if mask.length = 16 ∧ ip.length = 4 ∧ (mask.take 12).all (fun b => b == 0xff)
    then mask.drop 12 else mask
  let ip := if mask.length = 4 ∧ ip.length = 16 ∧ ip.take 12 = v4InV6Prefix
    then ip.drop 12 else ip
  if ip.length ≠ mask.length then []
  else List.zipWith (fun a b => a &&& b) ip mask

/-- Go `networkNumberAndMask`. -/
def networkNumberAndMask (n : IPNet) : IP × IPMask :=
  let ip := if To4 n.IP = [] then n.IP else To4 n.IP
  if To4 n.IP = [] ∧ ip.length ≠ 16 then ([], [])
  else if n.Mask.length = 4 then
    if ip.length ≠ 4 then ([], []) else (ip, n.Mask)
  else if n.Mask.length = 16 then
    if ip.length = 4 then (ip, n.Mask.drop 12) else (ip, n.Mask)
  else ([], [])

/-- The comparison loop of `Contains`. -/
def sameUnderMask : List Nat → List Nat → List Nat → Bool
  | a :: nn, k :: m, b :: ip => if a &&& k ≠ b &&& k then false else sameUnderMask nn m ip
  | _, _, _ => true

/-- Go `(*IPNet).Contains`. -/
def IPNet.Contains (n : IPNet) (ip : Divinity.IP) : Bool :=
  let nm := networkNumberAndMask n
  let ip := if To4 ip = [] then ip else To4 ip
  if ip.length ≠ nm.1.length then false
  else sameUnderMask nm.1 nm.2 ip

/-- Go `IP.String` for the nil address and for IPv4 addresses (dotted decimal); the
hexadecimal forms of other lengths are outside the model and stand as `"?"`. -/
def IPString (ip : IP) : String :=
  if ip.length = 0 then "<nil>"
  else
    match To4 ip with
    | [a, b, c, d] => toString a ++ "." ++ toString b ++ "." ++ toString c ++ "." ++ toString d
    | _ => "?"

/-- The bound `big` of `dtoi`. -/
def big : Nat := 0xFFFFFF

/-- The loop of `dtoi`, with the number read so far and the count of digits. -/
def dtoiLoop : List Char → Nat → Nat → Nat × Nat × Bool
  | [], n, i => if i = 0 then (0, 0, false) else (n, i, true)
  | c :: cs, n, i =>
    if '0' ≤ c ∧ c ≤ '9' then
      if big ≤ n * 10 + (c.toNat - '0'.toNat) then (big, i, false)
      else dtoiLoop cs (n * 10 + (c.toNat - '0'.toNat)) (i + 1)
    else if i = 0 then (0, 0, false) else (n, i, true)

/-- Go `dtoi`: the decimal number at the front of a text, the count of characters read,
and whether one was read. -/
def dtoi (s : List Char) : Nat × Nat × Bool := dtoiLoop s 0 0

/-- The step of `parseIPv4` in front of every field but the first: a dot is read, and
anything else ends the parse. -/
def skipDot (first : Bool) (s : List Char) : Option (List Char) :=
  if first then some s
  else
    match s with
    | '.' :: t => some t
    | _ => none

/-- The loop of `parseIPv4`: `k` fields are still to be read, `first` holds before the
first of them. -/
def parseFields : Nat → Bool → List Char → Option (List Nat)
  | 0, _, s => if s.length ≠ 0 then none else some []
  | k + 1, first, s =>
    if s.length = 0 then none
    else
      match skipDot first s with
      | none => none
      | some s1 =>
        if !(dtoi s1).2.2 || 0xFF < (dtoi s1).1 then none
        else (parseFields k false (s1.drop (dtoi s1).2.1)).map (fun p => (dtoi s1).1 :: p)

/-- Go `parseIPv4`: dotted decimal text to the 16-byte address, nil when malformed.
Fields may carry leading zeros, as in the `net` package of the program's time; later
releases reject those texts and agree on all others. -/
def parseIPv4 (s : List Char) : IP :=
  match parseFields 4 true s with
  | some [a, b, c, d] => IPv4 a b c d
  | _ => []

/-- The text before the first `/` and the text after it, when there is one. -/
def cutSlash : List Char → Option (List Char × List Char)
  | [] => none
  | c :: cs =>
    if c = '/' then some ([], cs)
    else (cutSlash cs).map (fun p => (c :: p.1, p.2))

/-- Go `net.ParseCIDR` on IPv4 text: the address and its network; `none` is the parse
error.  IPv6 text is outside the model. -/
def ParseCIDR (s : String) : Option (IP × IPNet) :=
  match cutSlash s.data with
  | none => none
  | some (addr, mask) =>
    let ip := parseIPv4 addr
    let r := dtoi mask
    if ip = [] ∨ !r.2.2 ∨ r.2.1 ≠ mask.length ∨ 8 * 4 < r.1 then none
    else
      let m := CIDRMask r.1 (8 * 4)
      some (ip, ⟨Mask ip m, m⟩)

/-! ## `divinity.go`: the CIDR enumerator -/

/-- The loop of `inc`, on the bytes from last to first. -/
def incRev : List Nat → List Nat
  | [] => []
  | b :: bs => if 0 < (b + 1) % 256 then (b + 1) % 256 :: bs else (b + 1) % 256 :: incRev bs

/-- `inc`: adds one to the address, read as a big-endian number, wrapping at the top. -/
def inc (ip : IP) : IP := (incRev ip.reverse).reverse

/-- How a run of `getIPsFromCIDR` ends. -/
inductive Outcome (α : Type) where
  | ok (value : α)
  | panic
  | outOfFuel
  deriving DecidableEq, Repr

/-- The `for` loop of `getIPsFromCIDR`, for at most `fuel` tests of its condition;
`none` when the fuel is used up before the condition fails. -/
def walk (ipnet : IPNet) : Nat → IP → List String → Option (List String)
  | 0, _, _ => none
  | fuel + 1, ip, ips =>
    if ipnet.Contains ip then walk ipnet fuel (inc ip) (ips ++ [IPString ip])
    else some ips

/-- `getIPsFromCIDR`: the addresses of the block but the first and the last.  A parse
error panics (`check`), and so does the slice `ips[1 : len(ips)-1]` when `ips` has
fewer than two elements. -/
def getIPsFromCIDR (fuel : Nat) (cidr : String) : Outcome (List String) :=
  match ParseCIDR cidr with
  | none => Outcome.panic
  | some (ip, ipnet) =>
    match walk ipnet fuel (Mask ip ipnet.Mask) [] with
    | none => Outcome.outOfFuel
    | some ips =>
      if 1 ≤ ips.length - 1 ∧ 1 ≤ ips.length then Outcome.ok ((ips.take (ips.length - 1)).drop 1)
      else Outcome.panic

/-- The number a 4-byte address stands for. -/
def ipVal : IP → Nat
  | [a, b, c, d] => ((a * 256 + b) * 256 + c) * 256 + d
  | _ => 0

/-- The 4-byte address of a number below `2 ^ 32`. -/
def ipOfVal (v : Nat) : IP := [v / 16777216 % 256, v / 65536 % 256, v / 256 % 256, v % 256]

/-! ## Notions used to state the properties -/

/-- The three probes a target can be given to. -/
inductive Probe where
  | HTTP
  | SSH
  | Telnet
  deriving DecidableEq, Repr

/-- The probe the handling of a line called, if it called one. -/
def selected : List Event → Option Probe
  | [Event.SSHPreflight _ _ _ _ _ _ _] => some Probe.SSH
  | [Event.TelnetPreflight _ _ _ _ _ _ _] => some Probe.Telnet
  | _ => none

/-- The port `doList` resolves for a line: the port of the line's host part, or the
configured `Port` when there is one. -/
def resolvedPort (conf : Options) (line : String) : String :=
  (GetIPPort conf (hostCred (Split line ' ')).1).2

/-- A decimal digit. -/
def IsDigit (c : Char) : Prop := '0' ≤ c ∧ c ≤ '9'

/-- Being a digit is decided by the two comparisons. -/
instance decidableIsDigit (c : Char) : Decidable (IsDigit c) :=
  inferInstanceAs (Decidable ('0' ≤ c ∧ c ≤ '9'))

/-- A run of one to three decimal digits. -/
def IsGroup (d : List Char) : Prop := 1 ≤ d.length ∧ d.length ≤ 3 ∧ ∀ c ∈ d, IsDigit c

/-- A dotted quad: four runs of one to three digits with single dots between them, the
written shape of an IPv4 address. -/
def IsQuad (q : List Char) : Prop :=
  ∃ d1 d2 d3 d4, IsGroup d1 ∧ IsGroup d2 ∧ IsGroup d3 ∧ IsGroup d4 ∧
    q = d1 ++ '.' :: (d2 ++ '.' :: (d3 ++ '.' :: d4))

/-- A line that holds a dotted quad somewhere. -/
def HasQuad (line : String) : Prop :=
  ∃ pre q post, IsQuad q ∧ line.data = pre ++ q ++ post

/-- A line of the list format as it is described: a dotted quad at the start, then
optionally `:` and a port of digits, then optionally a space and a credential token. -/
def IsTargetLine (line : String) : Prop :=
  ∃ q port cred, IsQuad q ∧
    (port = [] ∨ ∃ ds, ds ≠ [] ∧ (∀ c ∈ ds, IsDigit c) ∧ port = ':' :: ds) ∧
    (cred = [] ∨ ∃ token, cred = ' ' :: token) ∧
    line.data = q ++ port ++ cred

/-! # Theorems -/

/-! ### Correctness of the matcher -/

namespace RE

theorem nullable_iff (r : RE) : nullable r = true ↔ denote r [] := by
  induction r with
  | empty => simp [nullable, denote]
  | eps => simp [nullable, denote]
  | cls p => simp [nullable, denote]
  | seq a b iha ihb =>
    simp only [nullable, denote, Bool.and_eq_true, iha, ihb]
    constructor
    · intro h
      exact ⟨[], [], rfl, h.1, h.2⟩
    · rintro ⟨x, y, hxy, hx, hy⟩
      have hx0 : x = [] := by
        cases x with
        | nil => rfl
        | cons c t => simp at hxy
      have hy0 : y = [] := by
        cases y with
        | nil => rfl
        | cons c t => simp at hxy
      subst hx0
      subst hy0
      exact ⟨hx, hy⟩
  | alt a b iha ihb => simp [nullable, denote, iha, ihb]
  | star a _ =>
    simp only [nullable, denote, true_iff]
    exact ⟨[], rfl, by simp⟩

theorem denote_star_cons (a : RE) (c : Char) (s : List Char) :
    denote (star a) (c :: s) ↔
      ∃ x y, s = x ++ y ∧ denote a (c :: x) ∧ denote (star a) y := by
  constructor
  · rintro ⟨L, hL, hall⟩
    induction L with
    | nil => simp at hL
    | cons l L ih =>
      cases l with
      | nil =>
        apply ih
        · simpa using hL
        · intro y hy
          exact hall y (List.mem_cons_of_mem _ hy)
      | cons d t =>
        simp only [List.flatten_cons, List.cons_append, List.cons.injEq] at hL
        obtain ⟨hcd, hs⟩ := hL
        subst hcd
        refine ⟨t, L.flatten, hs, hall _ (List.mem_cons_self _ _), L, rfl, ?_⟩
        intro y hy
        exact hall y (List.mem_cons_of_mem _ hy)
  · rintro ⟨x, y, hs, hx, L, hL, hall⟩
    refine ⟨(c :: x) :: L, ?_, ?_⟩
    · simp [hs, hL]
    · intro z hz
      rcases List.mem_cons.mp hz with h | h
      · subst h
        exact hx
      · exact hall z h

theorem denote_deriv (r : RE) (c : Char) (s : List Char) :
    denote (deriv c r) s ↔ denote r (c :: s) := by
  induction r generalizing s with
  | empty => simp [deriv, denote]
  | eps => simp [deriv, denote]
  | cls p =>
    by_cases h : p c = true
    · simp only [deriv, h, if_true, denote, List.cons.injEq]
      constructor
      · intro hs
        exact ⟨c, ⟨rfl, hs⟩, h⟩
      · rintro ⟨d, ⟨_, hs⟩, _⟩
        exact hs
    · simp only [deriv, h, denote]
      simp only [Bool.false_eq_true, if_false, denote, false_iff]
      rintro ⟨d, hd, hp⟩
      simp only [List.cons.injEq] at hd
      rw [← hd.1] at hp
      exact h hp
  | seq a b iha ihb =>
    have key : denote (seq a b) (c :: s) ↔
        (∃ x y, s = x ++ y ∧ denote a (c :: x) ∧ denote b y) ∨
          (denote a [] ∧ denote b (c :: s)) := by
      constructor
      · rintro ⟨x, y, hxy, hx, hy⟩
        cases x with
        | nil =>
          right
          simp only [List.nil_append] at hxy
          subst hxy
          exact ⟨hx, hy⟩
        | cons d t =>
          left
          simp only [List.cons_append, List.cons.injEq] at hxy
          obtain ⟨hcd, hs⟩ := hxy
          subst hcd
          exact ⟨t, y, hs, hx, hy⟩
      · rintro (⟨x, y, hs, hx, hy⟩ | ⟨ha, hb⟩)
        · exact ⟨c :: x, y, by simp [hs], hx, hy⟩
        · exact ⟨[], c :: s, rfl, ha, hb⟩
    rw [key]
    by_cases hn : nullable a = true
    · have hn0 := (nullable_iff a).mp hn
      simp only [deriv, hn, if_true, denote, iha, ihb]
      constructor
      · rintro (h | h)
        · exact Or.inl h
        · exact Or.inr ⟨hn0, h⟩
      · rintro (h | h)
        · exact Or.inl h
        · exact Or.inr h.2
    · have hn0 : ¬ denote a [] := fun h => hn ((nullable_iff a).mpr h)
      simp only [deriv, hn, denote, iha]
      constructor
      · intro h
        exact Or.inl h
      · rintro (h | h)
        · exact h
        · exact absurd h.1 hn0
  | alt a b iha ihb => simp [deriv, denote, iha, ihb]
  | star a iha =>
    rw [denote_star_cons]
    simp only [deriv, denote, iha]

theorem rmatch_iff (r : RE) (s : List Char) : rmatch r s = true ↔ denote r s := by
  induction s generalizing r with
  | nil => simpa [rmatch] using nullable_iff r
  | cons c cs ih => rw [rmatch, ih, denote_deriv]

end RE

/-! ### Strings -/

theorem length_pos_iff (s : String) : 0 < s.length ↔ s ≠ "" := by
  rw [String.length, List.length_pos, ne_eq, ne_eq, String.ext_iff]

theorem splitChars_not_mem (sep : Char) (s : List Char) (h : sep ∉ s) :
    splitChars sep s = [s] := by
  induction s with
  | nil => rfl
  | cons c cs ih =>
    have hc : c ≠ sep := fun e => h (e ▸ List.mem_cons_self _ _)
    have hcs : sep ∉ cs := fun e => h (List.mem_cons_of_mem _ e)
    simp [splitChars, hc, ih hcs]

theorem splitChars_append (sep : Char) (u v : List Char) (h : sep ∉ u) :
    splitChars sep (u ++ sep :: v) = u :: splitChars sep v := by
  induction u with
  | nil => simp [splitChars]
  | cons c cs ih =>
    have hc : c ≠ sep := fun e => h (e ▸ List.mem_cons_self _ _)
    have hcs : sep ∉ cs := fun e => h (List.mem_cons_of_mem _ e)
    simp [splitChars, hc, ih hcs]

/-! ### The patterns of the credential resolver -/

theorem denote_chr (c : Char) (s : List Char) : RE.denote (RE.chr c) s ↔ s = [c] := by
  simp only [RE.chr, RE.denote, beq_iff_eq]
  constructor
  · rintro ⟨d, hs, hd⟩
    rw [hs, hd]
  · intro hs
    exact ⟨c, hs, rfl⟩

theorem nouserRE_mem (s : String) (h : nouserRE.MatchString s = true) : ':' ∈ s.data := by
  simp only [Regexp.MatchString, nouserRE, if_true, Bool.false_eq_true, if_false] at h
  rw [RE.rmatch_iff] at h
  obtain ⟨x, y, hxy, _, z, w, hzw, ⟨a, b, hab, ha, _⟩, _⟩ := h
  rw [denote_chr] at ha
  rw [hxy, hzw, hab, ha]
  simp

theorem nopassRE_mem (s : String) (h : nopassRE.MatchString s = true) : ':' ∈ s.data := by
  simp only [Regexp.MatchString, nopassRE, if_true, Bool.false_eq_true, if_false] at h
  rw [RE.rmatch_iff] at h
  obtain ⟨x, y, hxy, _, z, w, hzw, ⟨a, b, hab, _, hb⟩, _⟩ := h
  rw [denote_chr] at hb
  rw [hxy, hzw, hab, hb]
  simp

theorem credsOf_pair (u p : String) (hu : ':' ∉ u.data) (hp : ':' ∉ p.data) :
    credsOf [u, p] = some (u, p) := by
  have h1 : nouserRE.MatchString u = false := by
    cases h : nouserRE.MatchString u with
    | false => rfl
    | true => exact absurd (nouserRE_mem u h) hu
  have h2 : nopassRE.MatchString p = false := by
    cases h : nopassRE.MatchString p with
    | false => rfl
    | true => exact absurd (nopassRE_mem p h) hp
  simp [credsOf, h1, h2]

theorem Split_pair (u p : String) (hu : ':' ∉ u.data) (hp : ':' ∉ p.data) :
    Split (u ++ ":" ++ p) ':' = [u, p] := by
  have hd : (u ++ ":" ++ p).data = u.data ++ ':' :: p.data := by
    simp [String.data_append]
  rw [Split, hd, splitChars_append _ _ _ hu, splitChars_not_mem _ _ hp]
  rfl

theorem Split_single (sep : Char) (t : String) (ht : sep ∉ t.data) : Split t sep = [t] := by
  rw [Split, splitChars_not_mem _ _ ht]
  rfl

/-! ### C3, C4: the credential resolver -/

/-- C3: when the `Username` override or the `Password` override is not empty, `GetCreds`
returns the two overrides, whatever the token and the default credential string are,
also when one of the two overrides is empty. -/
theorem GetCreds_overrides (conf : Options) (credString : String)
    (h : conf.Username ≠ "" ∨ conf.Password ≠ "") :
    GetCreds conf credString = (conf.Username, conf.Password) := by
  have h2 : 0 < conf.Username.length ∨ 0 < conf.Password.length := by
    rcases h with h | h
    · exact Or.inl ((length_pos_iff _).mpr h)
    · exact Or.inr ((length_pos_iff _).mpr h)
  simp only [GetCreds, h2, if_true]

/-- Witness of `GetCreds_overrides`: the overrides `("root", "toor")`, against a token and a
default credential string that both carry another pair. -/
theorem GetCreds_overrides_witness :
    GetCreds { Options.blank with Username := "root", Password := "toor", Credentials := "a:b" }
      "admin:secret" = ("root", "toor") :=
  GetCreds_overrides _ _ (Or.inl (by decide))

theorem GetCreds_pair (conf : Options) (hU : conf.Username = "") (hP : conf.Password = "")
    (hC : conf.Credentials = "") (u p : String) (hu : ':' ∉ u.data) (hp : ':' ∉ p.data) :
    GetCreds conf (u ++ ":" ++ p) = (u, p) := by
  simp [GetCreds, hU, hP, hC, Split_pair u p hu hp, credsOf_pair u p hu hp]

theorem GetCreds_plain (conf : Options) (hU : conf.Username = "") (hP : conf.Password = "")
    (hC : conf.Credentials = "") (t : String) (ht : ':' ∉ t.data) :
    GetCreds conf t = ("", "") := by
  simp [GetCreds, hU, hP, hC, Split_single ':' t ht, credsOf]

/-- C4: with no override and no default credential string, a token `u:p` whose two sides
are free of `:` resolves to `(u, p)`, either side possibly empty; so `admin:` gives
`("admin", "")` and `:secret` gives `("", "secret")`; a token without `:` resolves to
`("", "")`. -/
theorem GetCreds_token (conf : Options) (hU : conf.Username = "") (hP : conf.Password = "")
    (hC : conf.Credentials = "") :
    (∀ u p : String, ':' ∉ u.data → ':' ∉ p.data → GetCreds conf (u ++ ":" ++ p) = (u, p)) ∧
      GetCreds conf "admin:" = ("admin", "") ∧
      GetCreds conf ":secret" = ("", "secret") ∧
      (∀ t : String, ':' ∉ t.data → GetCreds conf t = ("", "")) ∧
      GetCreds conf "" = ("", "") := by
  refine ⟨GetCreds_pair conf hU hP hC, ?_, ?_, GetCreds_plain conf hU hP hC,
    GetCreds_plain conf hU hP hC "" (by decide)⟩
  · exact GetCreds_pair conf hU hP hC "admin" "" (by decide) (by decide)
  · exact GetCreds_pair conf hU hP hC "" "secret" (by decide) (by decide)

/-- Witness of `GetCreds_token` at the blank configuration. -/
theorem GetCreds_token_witness :
    GetCreds Options.blank "admin:" = ("admin", "") ∧
      GetCreds Options.blank ":secret" = ("", "secret") ∧
      GetCreds Options.blank ("ad" ++ ":" ++ "min") = ("ad", "min") ∧
      GetCreds Options.blank "anonymous" = ("", "") :=
  ⟨(GetCreds_token Options.blank rfl rfl rfl).2.1,
    (GetCreds_token Options.blank rfl rfl rfl).2.2.1,
    (GetCreds_token Options.blank rfl rfl rfl).1 "ad" "min" (by decide) (by decide),
    (GetCreds_token Options.blank rfl rfl rfl).2.2.2.1 "anonymous" (by decide)⟩

/-! ### C5: the choice of the probe -/

/-- C5 (as the code has it): for a line that passes the format check, the SSH probe is
called when the SSH flag is set or the resolved port is `22`; otherwise the Telnet probe
is called when the Telnet flag is set or the resolved port is `23`; otherwise no probe
is called at all.  So the SSH flag wins over port `23`, port `22` wins over the Telnet
flag, and without flags a port other than `22` and `23` selects nothing. -/
theorem doLine_selected (conf : Options) (line : String)
    (h : listMatch.MatchString line = true) :
    selected (doLine conf line) =
      (if conf.SSH = true ∨ resolvedPort conf line = "22" then some Probe.SSH
        else if conf.Telnet = true ∨ resolvedPort conf line = "23" then some Probe.Telnet
        else none) ∧
      (selected (doLine conf line) = none → doLine conf line = []) := by
  by_cases h1 : conf.SSH = true ∨ resolvedPort conf line = "22"
  · have h1' : (conf.SSH || (GetIPPort conf (hostCred (Split line ' ')).1).2 == "22") = true := by
      simpa [resolvedPort] using h1
    simp [doLine, h, h1, h1', selected]
  · have h1' : (conf.SSH || (GetIPPort conf (hostCred (Split line ' ')).1).2 == "22") = false := by
      have := h1
      simp only [resolvedPort] at this
      cases hs : conf.SSH <;> simp_all
    by_cases h2 : conf.Telnet = true ∨ resolvedPort conf line = "23"
    · have h2' : (conf.Telnet || (GetIPPort conf (hostCred (Split line ' ')).1).2 == "23") = true := by
        simpa [resolvedPort] using h2
      simp [doLine, h, h1, h1', h2, h2', selected]
    · have h2' : (conf.Telnet || (GetIPPort conf (hostCred (Split line ' ')).1).2 == "23") = false := by
        have := h2
        simp only [resolvedPort] at this
        cases hs : conf.Telnet <;> simp_all
      simp [doLine, h, h1, h1', h2, h2', selected]

/-- Witness of `doLine_selected`: with the SSH flag alone and port `23` the SSH probe is
called. -/
theorem doLine_selected_witness :
    listMatch.MatchString "10.0.0.5:23" = true ∧
      selected (doLine { Options.blank with SSH := true } "10.0.0.5:23") = some Probe.SSH :=
  ⟨by decide,
    (doLine_selected { Options.blank with SSH := true } "10.0.0.5:23" (by decide)).1.trans
      (by decide)⟩

/-- C5 fails as stated: with the Telnet flag alone and port `22` the SSH probe is
called, not the Telnet probe; and with no flag and port `80` no probe is called, the
HTTP probe included. -/
theorem doLine_selected_counterexample :
    doLine { Options.blank with Telnet := true } "10.0.0.5:22" =
        [Event.SSHPreflight "10.0.0.5:22" "10.0.0.5" "22" "" "" "" ""] ∧
      selected (doLine { Options.blank with Telnet := true } "10.0.0.5:22") ≠ some Probe.Telnet ∧
      listMatch.MatchString "10.0.0.5:80" = true ∧
      doLine Options.blank "10.0.0.5:80" = [] := by
  decide

/-! ### C9: the line classifier -/

/-- C9 (as the patterns have it): with a denial match short-circuiting and the prompt
rules tried after it, `Login incorrect` gets the verdict denial and `user@host:~$ ` the
verdict success-prompt.  `Login incorrect` is matched by the denial pattern `badRE` and
also by the login pattern `userRE` (not by `passRE` or `promptRE`), so its verdict rests
on the denial rule coming first; `user@host:~$ ` is matched by `promptRE` and by none
of `badRE`, `userRE`, `passRE`. -/
theorem classify_examples :
    classify "Login incorrect" = Verdict.denial ∧
      badRE.MatchString "Login incorrect" = true ∧
      userRE.MatchString "Login incorrect" = true ∧
      passRE.MatchString "Login incorrect" = false ∧
      promptRE.MatchString "Login incorrect" = false ∧
      classify "user@host:~$ " = Verdict.successPrompt ∧
      promptRE.MatchString "user@host:~$ " = true ∧
      badRE.MatchString "user@host:~$ " = false ∧
      userRE.MatchString "user@host:~$ " = false ∧
      passRE.MatchString "user@host:~$ " = false := by
  decide

/-- C9 fails as stated: `Login incorrect` is matched by `userRE`, a rule the claim puts
before `badRE`, so it is not true that no earlier rule matches that line. -/
theorem classify_counterexample :
    userRE.MatchString "Login incorrect" = true ∧
      ¬ (userRE.MatchString "Login incorrect" = false ∧
        passRE.MatchString "Login incorrect" = false ∧
        promptRE.MatchString "Login incorrect" = false) := by
  decide

/-! ### C6, C7: the verdict of the HTTP probe -/

theorem containsChars_iff (sub s : List Char) :
    containsChars sub s = true ↔ ∃ pre post, s = pre ++ sub ++ post := by
  induction s with
  | nil =>
    simp only [containsChars, List.isEmpty_iff]
    constructor
    · intro h
      exact ⟨[], [], by simp [h]⟩
    · rintro ⟨pre, post, h⟩
      have h2 := congrArg List.length h
      simp only [List.length_nil, List.length_append] at h2
      exact List.length_eq_zero.mp (by omega)
  | cons c cs ih =>
    simp only [containsChars, Bool.or_eq_true, List.isPrefixOf_iff_prefix, ih]
    constructor
    · rintro (⟨t, ht⟩ | ⟨pre, post, h⟩)
      · exact ⟨[], t, by simp [ht]⟩
      · exact ⟨c :: pre, post, by simp [h]⟩
    · rintro ⟨pre, post, h⟩
      cases pre with
      | nil => exact Or.inl ⟨post, by simpa using h.symm⟩
      | cons d pre =>
        simp only [List.cons_append, List.cons.injEq] at h
        exact Or.inr ⟨pre, post, h.2⟩

theorem findings_report (e : Effect) (msg outputFile : String)
    (he : ∀ s, e ≠ Effect.println s) :
    findings (e :: report msg outputFile) = [msg] := by
  cases e with
  | println s => exact absurd rfl (he s)
  | Println s => by_cases h : 0 < outputFile.length <;> simp [findings, report, h]
  | filewrite a b => by_cases h : 0 < outputFile.length <;> simp [findings, report, h]
  | panic => by_cases h : 0 < outputFile.length <;> simp [findings, report, h]

theorem encodeBytes_eq_nil (l : List Nat) : encodeBytes l = [] ↔ l = [] := by
  match l with
  | [] => simp [encodeBytes]
  | [a] => simp [encodeBytes]
  | [a, b] => simp [encodeBytes]
  | a :: b :: c :: rest => simp [encodeBytes]

theorem EncodeToString_length_pos (s : String) : 0 < (EncodeToString s).length ↔ s ≠ "" := by
  rw [length_pos_iff, ne_eq, ne_eq, String.ext_iff, String.ext_iff]
  show ¬ encodeBytes (bytesOf s) = [] ↔ ¬ s.data = []
  rw [encodeBytes_eq_nil, bytesOf, List.flatMap_eq_nil_iff]
  constructor
  · intro h hs
    apply h
    intro x hx
    rw [hs] at hx
    simp at hx
  · intro h hall
    apply h
    cases hd : s.data with
    | nil => rfl
    | cons c cs =>
      have hc := hall c (by rw [hd]; exact List.mem_cons_self _ _)
      have hl := String.length_utf8EncodeChar c
      have hp := Char.utf8Size_pos c
      have h0 : (String.utf8EncodeChar c).length = 0 := by
        have := congrArg List.length hc
        simpa using this
      omega

/-- C6: when a success marker is configured and the response has status 200 and a fully
read body `b`, `doLogin` reports the finding `ip`, a tab, the alert label, exactly when
the marker occurs in `b` (and otherwise reports nothing), whatever the Basic Auth
setting is. -/
theorem doLogin_marker (ip : String) (conf : Options) (client : Request → Exchange)
    (b : String) (hs : conf.Success ≠ "")
    (hr : client (buildRequest ip conf) = Exchange.response 200 (some b)) :
    (findings (doLogin ip conf client) =
        if Contains b conf.Success = true then [ip ++ "\t" ++ conf.Alert] else []) ∧
      (Contains b conf.Success = true ↔ ∃ pre post, b.data = pre ++ conf.Success.data ++ post) := by
  have hs2 : 0 < conf.Success.length := (length_pos_iff _).mpr hs
  refine ⟨?_, containsChars_iff _ _⟩
  by_cases hc : Contains b conf.Success = true
  · simp only [doLogin, hr, hs2, hc, if_true, ne_eq, not_true_eq_false, if_false]
    exact findings_report _ _ _ (by simp)
  · simp [doLogin, hr, hs2, hc, findings]

/-- Witness of `doLogin_marker`: the marker `Welcome` against a body that holds it and
against one that does not, for the request `GET http://10.0.0.5:80/`. -/
theorem doLogin_marker_witness :
    findings (doLogin "10.0.0.5"
        { Options.blank with
          Protocol := "http", Port := "80", Path := "/", Method := "GET",
          Success := "Welcome", Alert := "weak" }
        (fun _ => Exchange.response 200 (some "<html>Welcome back</html>"))) = ["10.0.0.5\tweak"] ∧
      findings (doLogin "10.0.0.5"
        { Options.blank with
          Protocol := "http", Port := "80", Path := "/", Method := "GET",
          Success := "Welcome", Alert := "weak", BasicAuth := "a:b" }
        (fun _ => Exchange.response 200 (some "<html>Forbidden</html>"))) = [] :=
  ⟨(doLogin_marker "10.0.0.5"
      { Options.blank with
        Protocol := "http", Port := "80", Path := "/", Method := "GET",
        Success := "Welcome", Alert := "weak" }
      (fun _ => Exchange.response 200 (some "<html>Welcome back</html>"))
      "<html>Welcome back</html>" (by decide) rfl).1.trans (by decide),
    (doLogin_marker "10.0.0.5"
      { Options.blank with
        Protocol := "http", Port := "80", Path := "/", Method := "GET",
        Success := "Welcome", Alert := "weak", BasicAuth := "a:b" }
      (fun _ => Exchange.response 200 (some "<html>Forbidden</html>"))
      "<html>Forbidden</html>" (by decide) rfl).1.trans (by decide)⟩

/-- C7 (as the code has it): `doLogin` reports no finding when the request cannot be
built or fails, when the status is not 200, and when reading the body fails.  For a 200
response with an empty body it reports no finding exactly when a success marker is
configured or no Basic Auth string is: with a Basic Auth string and no marker the empty
200 response is reported. -/
theorem doLogin_no_finding (ip : String) (conf : Options) (client : Request → Exchange) :
    (client (buildRequest ip conf) = Exchange.invalid → findings (doLogin ip conf client) = []) ∧
      (client (buildRequest ip conf) = Exchange.failed → findings (doLogin ip conf client) = []) ∧
      (∀ (status : Int) (body : Option String), status ≠ 200 →
        client (buildRequest ip conf) = Exchange.response status body →
        findings (doLogin ip conf client) = []) ∧
      (∀ status : Int, client (buildRequest ip conf) = Exchange.response status none →
        findings (doLogin ip conf client) = []) ∧
      (client (buildRequest ip conf) = Exchange.response 200 (some "") →
        (findings (doLogin ip conf client) = [] ↔ (conf.Success ≠ "" ∨ conf.BasicAuth = ""))) := by
  refine ⟨?_, ?_, ?_, ?_, ?_⟩
  · intro h
    simp [doLogin, h, findings]
  · intro h
    simp [doLogin, h, findings]
  · intro status body hne h
    simp [doLogin, h, hne, findings]
  · intro status h
    by_cases hst : status = 200
    · simp [doLogin, h, hst, findings]
    · simp [doLogin, h, hst, findings]
  · intro h
    by_cases hs : conf.Success = ""
    · have hs2 : ¬ 0 < conf.Success.length := by
        rw [length_pos_iff]
        exact fun hn => hn hs
      by_cases hb : conf.BasicAuth = ""
      · have hb2 : ¬ 0 < (EncodeToString conf.BasicAuth).length := by
          rw [EncodeToString_length_pos]
          exact fun hn => hn hb
        simp [doLogin, h, hs2, hb2, hb, findings]
      · have hb2 : 0 < (EncodeToString conf.BasicAuth).length :=
          (EncodeToString_length_pos _).mpr hb
        simp only [doLogin, h, hs2, hb2, if_true, if_false, ne_eq, not_true_eq_false]
        rw [findings_report _ _ _ (by simp)]
        simp [hs, hb]
    · have hs2 : 0 < conf.Success.length := (length_pos_iff _).mpr hs
      have hc : Contains "" conf.Success = false := by
        have hne : conf.Success.data ≠ [] := by
          intro hd
          exact hs (String.ext_iff.mpr hd)
        simp only [Contains, containsChars]
        simpa [List.isEmpty_iff] using hne
      simp [doLogin, h, hs2, hc, hs, findings]

/-- Witness of `doLogin_no_finding`: for the request `GET http://10.0.0.5:80/`, a 404
response, and an empty 200 response against a configured marker, give no finding. -/
theorem doLogin_no_finding_witness :
    findings (doLogin "10.0.0.5"
        { Options.blank with
          Protocol := "http", Port := "80", Path := "/", Method := "GET", BasicAuth := "a:b" }
        (fun _ => Exchange.response 404 (some "Not Found"))) = [] ∧
      (findings (doLogin "10.0.0.5"
        { Options.blank with
          Protocol := "http", Port := "80", Path := "/", Method := "GET",
          Success := "Welcome", BasicAuth := "a:b" }
        (fun _ => Exchange.response 200 (some ""))) = []) :=
  ⟨(doLogin_no_finding "10.0.0.5"
      { Options.blank with
        Protocol := "http", Port := "80", Path := "/", Method := "GET", BasicAuth := "a:b" }
      (fun _ => Exchange.response 404 (some "Not Found"))).2.2.1 404 (some "Not Found")
      (by decide) rfl,
    ((doLogin_no_finding "10.0.0.5"
      { Options.blank with
        Protocol := "http", Port := "80", Path := "/", Method := "GET",
        Success := "Welcome", BasicAuth := "a:b" }
      (fun _ => Exchange.response 200 (some ""))).2.2.2.2 rfl).mpr (Or.inl (by decide))⟩

/-- C7 fails as stated: with the Basic Auth string `admin:admin` and no success marker,
the request `GET http://10.0.0.5:80/` is built with its `Authorization` header, and a
200 response to it with an empty body is reported as a finding. -/
theorem doLogin_no_finding_counterexample :
    buildRequest "10.0.0.5"
        { Options.blank with
          Protocol := "http", Port := "80", Path := "/", Method := "GET",
          BasicAuth := "admin:admin", Alert := "weak" } =
        ⟨"GET", "http://10.0.0.5:80/", "", [("Authorization", "Basic YWRtaW46YWRtaW4=")]⟩ ∧
      doLogin "10.0.0.5"
        { Options.blank with
          Protocol := "http", Port := "80", Path := "/", Method := "GET",
          BasicAuth := "admin:admin", Alert := "weak" }
        (fun _ => Exchange.response 200 (some "")) =
        [Effect.Println "Trying 10.0.0.5 ...", Effect.println "10.0.0.5\tweak"] ∧
      findings (doLogin "10.0.0.5"
        { Options.blank with
          Protocol := "http", Port := "80", Path := "/", Method := "GET",
          BasicAuth := "admin:admin", Alert := "weak" }
        (fun _ => Exchange.response 200 (some ""))) = ["10.0.0.5\tweak"] := by
  decide

/-! ### C8: the format check of `doList` -/

theorem denote_digit (s : List Char) : RE.denote RE.digit s ↔ ∃ c, s = [c] ∧ IsDigit c := by
  simp only [RE.digit, RE.denote, decide_eq_true_eq, IsDigit]

theorem denote_seq (a b : RE) (s : List Char) :
    RE.denote (RE.seq a b) s ↔ ∃ x y, s = x ++ y ∧ RE.denote a x ∧ RE.denote b y :=
  Iff.rfl

theorem denote_alt (a b : RE) (s : List Char) :
    RE.denote (RE.alt a b) s ↔ RE.denote a s ∨ RE.denote b s :=
  Iff.rfl

theorem denote_eps (s : List Char) : RE.denote RE.eps s ↔ s = [] :=
  Iff.rfl

theorem denote_digits13 (g : List Char) : RE.denote digits13 g ↔ IsGroup g := by
  simp only [digits13, RE.rep1, RE.opt, denote_seq, denote_alt, denote_eps, denote_digit]
  constructor
  · rintro ⟨x, y, hg, ⟨c1, hx1, hc1⟩, hy⟩
    rcases hy with ⟨x2, y2, hy2, ⟨c2, hx2, hc2⟩, hz⟩ | hy
    · rcases hz with ⟨c3, hz, hc3⟩ | hz
      · subst hg hx1 hy2 hx2 hz
        refine ⟨by simp, by simp, ?_⟩
        intro c hc
        simp only [List.singleton_append, List.mem_cons, List.mem_singleton, List.not_mem_nil,
          or_false] at hc
        rcases hc with h | h | h <;> rw [h] <;> assumption
      · subst hg hx1 hy2 hx2 hz
        refine ⟨by simp, by simp, ?_⟩
        intro c hc
        simp only [List.singleton_append, List.append_nil, List.mem_cons, List.mem_singleton,
          List.not_mem_nil, or_false] at hc
        rcases hc with h | h <;> rw [h] <;> assumption
    · subst hg hx1 hy
      refine ⟨by simp, by simp, ?_⟩
      intro c hc
      simp only [List.append_nil, List.mem_singleton] at hc
      rw [hc]
      exact hc1
  · rintro ⟨h1, h3, hall⟩
    match g, h1, h3, hall with
    | [c1], _, _, hall =>
      exact ⟨[c1], [], by simp, ⟨c1, rfl, hall c1 (by simp)⟩, Or.inr rfl⟩
    | [c1, c2], _, _, hall =>
      exact ⟨[c1], [c2], by simp, ⟨c1, rfl, hall c1 (by simp)⟩,
        Or.inl ⟨[c2], [], by simp, ⟨c2, rfl, hall c2 (by simp)⟩, Or.inr rfl⟩⟩
    | [c1, c2, c3], _, _, hall =>
      exact ⟨[c1], [c2, c3], by simp, ⟨c1, rfl, hall c1 (by simp)⟩,
        Or.inl ⟨[c2], [c3], by simp, ⟨c2, rfl, hall c2 (by simp)⟩,
          Or.inl ⟨c3, rfl, hall c3 (by simp)⟩⟩⟩
    | [], h1, _, _ => simp at h1
    | _ :: _ :: _ :: _ :: _, _, h3, _ =>
      simp only [List.length_cons] at h3
      omega

theorem denote_star_nil (r : RE) : RE.denote (RE.star r) [] :=
  ⟨[], rfl, by simp⟩

theorem denote_star_anyChar (s : List Char) : RE.denote (RE.star RE.anyChar) s := by
  refine ⟨s.map (fun c => [c]), ?_, ?_⟩
  · induction s with
    | nil => rfl
    | cons c cs ih => simp [← ih]
  · intro y hy
    obtain ⟨c, _, hc⟩ := List.mem_map.mp hy
    exact ⟨c, hc.symm, rfl⟩

theorem listMatch_iff (line : String) : listMatch.MatchString line = true ↔ HasQuad line := by
  simp only [Regexp.MatchString, listMatch, Bool.false_eq_true, if_false]
  rw [RE.rmatch_iff]
  constructor
  · rintro ⟨a, r, hline, _, b, c, hr, hb, _⟩
    obtain ⟨g1, t1, e1, hg1, p1, t2, e2, hp1, g2, t3, e3, hg2, p2, t4, e4, hp2,
      g3, t5, e5, hg3, p3, t6, e6, hp3, g4, rest, e7, hg4, _⟩ := hb
    rw [denote_chr] at hp1 hp2 hp3
    rw [denote_digits13] at hg1 hg2 hg3 hg4
    refine ⟨a, g1 ++ '.' :: (g2 ++ '.' :: (g3 ++ '.' :: g4)), rest ++ c,
      ⟨g1, g2, g3, g4, hg1, hg2, hg3, hg4, rfl⟩, ?_⟩
    rw [hline, hr, e1, e2, e3, e4, e5, e6, e7, hp1, hp2, hp3]
    simp
  · rintro ⟨pre, q, post, ⟨g1, g2, g3, g4, hg1, hg2, hg3, hg4, hq⟩, hline⟩
    rw [← denote_digits13] at hg1 hg2 hg3 hg4
    refine ⟨pre, q ++ post, by simp [hline], denote_star_anyChar pre, q, post, rfl, ?_,
      denote_star_anyChar post⟩
    refine ⟨g1, _, ?_, hg1, ['.'], _, rfl, (denote_chr _ _).mpr rfl, g2, _, rfl, hg2,
      ['.'], _, rfl, (denote_chr _ _).mpr rfl, g3, _, rfl, hg3,
      ['.'], _, rfl, (denote_chr _ _).mpr rfl, g4, [], rfl, hg4, ?_⟩
    · rw [hq]
      simp
    · exact ⟨[], [], rfl, Or.inr rfl, [], [], rfl, denote_star_nil _, [], [], rfl, Or.inr rfl,
        denote_star_nil _⟩

theorem IsQuad_head (q : List Char) (h : IsQuad q) : ∃ c t, q = c :: t ∧ IsDigit c := by
  obtain ⟨d1, d2, d3, d4, ⟨h1, _, hall⟩, _, _, _, hq⟩ := h
  cases d1 with
  | nil => simp at h1
  | cons c t => exact ⟨c, _, by rw [hq]; rfl, hall c (List.mem_cons_self _ _)⟩

theorem IsTargetLine_HasQuad (line : String) (h : IsTargetLine line) : HasQuad line := by
  obtain ⟨q, port, cred, hq, _, _, hline⟩ := h
  exact ⟨[], q, port ++ cred, hq, by simp [hline]⟩

theorem doList_append (conf : Options) (pre post : List String) :
    doList conf (pre ++ post) = doList conf pre ++ doList conf post := by
  induction pre with
  | nil => rfl
  | cons l ls ih => simp [doList, ih]

/-- C8 (what the code does): the format check of `doList` accepts a line exactly when
the line holds somewhere four runs of one to three digits with dots between them.  Every
line of the described format is accepted; so is a line with other text in front of the
address, since the pattern has no `^`.  A line that is not accepted is reported as
`string formatted incorrectly` with no probe called, and the lines before and after it
are handled as usual. -/
theorem doList_format (conf : Options) :
    (∀ line : String, listMatch.MatchString line = true ↔ HasQuad line) ∧
      (∀ line : String, IsTargetLine line → listMatch.MatchString line = true) ∧
      (∀ line : String, ¬ HasQuad line →
        doLine conf line = [Event.log ("string formatted incorrectly: " ++ line)]) ∧
      (∀ (pre post : List String) (line : String), ¬ HasQuad line →
        doList conf (pre ++ line :: post) =
          doList conf pre ++ Event.log ("string formatted incorrectly: " ++ line) ::
            doList conf post) := by
  have hrej : ∀ line : String, ¬ HasQuad line →
      doLine conf line = [Event.log ("string formatted incorrectly: " ++ line)] := by
    intro line hl
    have hm : listMatch.MatchString line = false := by
      cases h : listMatch.MatchString line with
      | false => rfl
      | true => exact absurd ((listMatch_iff line).mp h) hl
    simp [doLine, hm]
  refine ⟨listMatch_iff, ?_, hrej, ?_⟩
  · intro line hl
    exact (listMatch_iff line).mpr (IsTargetLine_HasQuad line hl)
  · intro pre post line hl
    rw [doList_append, doList, hrej line hl]
    rfl

/-- Witness of `doList_format`: a line with no dotted quad between two well-formed lines
is reported and the other two are probed. -/
theorem doList_format_witness :
    doList { Options.blank with SSH := true } (["10.0.0.5"] ++ "10.0.0" :: ["10.0.0.6"]) =
      doList { Options.blank with SSH := true } ["10.0.0.5"] ++
        Event.log ("string formatted incorrectly: " ++ "10.0.0") ::
          doList { Options.blank with SSH := true } ["10.0.0.6"] :=
  (doList_format { Options.blank with SSH := true }).2.2.2 ["10.0.0.5"] ["10.0.0.6"] "10.0.0"
    (fun h => absurd ((doList_format Options.blank).1 "10.0.0" |>.mpr h) (by decide))

/-- C8 at the failing input: the line `root 10.0.0.5` has text in front of the address
and is not of the described format, yet the format check accepts it (the address is found
in the second field), nothing is reported, and the SSH probe is called with the first
field, `root`, as host and address. -/
theorem doList_format_counterexample :
    ¬ IsTargetLine "root 10.0.0.5" ∧
      listMatch.MatchString "root 10.0.0.5" = true ∧
      doList { Options.blank with SSH := true } ["root 10.0.0.5"] =
        [Event.SSHPreflight "root" "root" "" "" "" "" ""] := by
  refine ⟨?_, by decide, by decide⟩
  rintro ⟨q, port, cred, hq, _, _, hline⟩
  obtain ⟨c, t, hqc, hc⟩ := IsQuad_head q hq
  rw [hqc] at hline
  have hline2 : ['r', 'o', 'o', 't', ' ', '1', '0', '.', '0', '.', '0', '.', '5'] =
      c :: (t ++ port ++ cred) := by
    simpa using hline
  have hr : 'r' = c := (List.cons.inj hline2).1
  rw [← hr] at hc
  have hn : ¬ ('0' ≤ 'r' ∧ 'r' ≤ '9') := by decide
  exact hn hc

/-! ### C10: well-formed lines under the SSH flag -/

theorem IsGroup_mem (d : List Char) (h : IsGroup d) (c : Char) (hc : c ∈ d) :
    c ≠ ' ' ∧ c ≠ ':' := by
  have hd : '0' ≤ c ∧ c ≤ '9' := h.2.2 c hc
  constructor
  · rintro rfl
    exact absurd hd (by decide)
  · rintro rfl
    exact absurd hd (by decide)

theorem IsQuad_mem (q : List Char) (h : IsQuad q) (c : Char) (hc : c ∈ q) :
    c ≠ ' ' ∧ c ≠ ':' := by
  obtain ⟨d1, d2, d3, d4, h1, h2, h3, h4, hq⟩ := h
  rw [hq] at hc
  simp only [List.mem_append, List.mem_cons] at hc
  rcases hc with hc | hc | hc | hc | hc | hc | hc
  · exact IsGroup_mem d1 h1 c hc
  · rw [hc]
    exact ⟨by decide, by decide⟩
  · exact IsGroup_mem d2 h2 c hc
  · rw [hc]
    exact ⟨by decide, by decide⟩
  · exact IsGroup_mem d3 h3 c hc
  · rw [hc]
    exact ⟨by decide, by decide⟩
  · exact IsGroup_mem d4 h4 c hc

theorem Replace_not_mem (s : String) (old : Char) (h : old ∉ s.data) : Replace s old = s := by
  have hf : s.data.filter (fun c => c != old) = s.data := by
    rw [List.filter_eq_self]
    intro c hc
    have : c ≠ old := fun e => h (e ▸ hc)
    simpa using this
  rw [Replace, hf]

theorem Split_space (h c : String) (hh : ' ' ∉ h.data) (hc : ' ' ∉ c.data) :
    Split (h ++ " " ++ c) ' ' = [h, c] := by
  have hd : (h ++ " " ++ c).data = h.data ++ ' ' :: c.data := by
    simp [String.data_append]
  rw [Split, hd, splitChars_append _ _ _ hh, splitChars_not_mem _ _ hc]
  rfl

theorem GetIPPort_pair (conf : Options) (hPort : conf.Port = "") (ip port : String)
    (hi : ':' ∉ ip.data) (hp : ':' ∉ port.data) :
    GetIPPort conf (ip ++ ":" ++ port) = (ip, port) := by
  simp [GetIPPort, Split_pair ip port hi hp, hPort]

theorem GetIPPort_plain (conf : Options) (hPort : conf.Port = "") (ip : String)
    (hi : ':' ∉ ip.data) :
    GetIPPort conf ip = (ip, "") := by
  simp [GetIPPort, Split_single ':' ip hi, hPort]

theorem doLine_ssh (conf : Options) (hSSH : conf.SSH = true) (host cred : String)
    (hq : HasQuad host) (hh : ' ' ∉ host.data) (hc : ' ' ∉ cred.data) :
    doLine conf (host ++ " " ++ cred) =
      [Event.SSHPreflight host (GetIPPort conf host).1 (GetIPPort conf host).2
        (GetCreds conf cred).1 (GetCreds conf cred).2 conf.Alert conf.OutputFile] := by
  have hm : listMatch.MatchString (host ++ " " ++ cred) = true := by
    rw [listMatch_iff]
    obtain ⟨pre, q, post, hq, hline⟩ := hq
    exact ⟨pre, q, post ++ ' ' :: cred.data, hq, by simp [String.data_append, hline]⟩
  simp [doLine, hm, Split_space host cred hh hc, hostCred, Replace_not_mem host ' ' hh,
    Replace_not_mem cred ' ' hc, hSSH]

/-- C10: with the SSH flag set and no global user name, password, port or default
credential string, a line `ip:port user:pass` or `ip user:pass` (`ip` a dotted quad,
`port` digits, `user` and `pass` free of spaces and `:`) makes `doList` call exactly one
probe, the SSH probe, with the host `ip`, the port of the line (empty when the line has
none) and the credentials `(user, pass)`; lines are handled in order, so the list
`10.0.0.5:22 root:toor`, `10.0.0.6 admin:` gives two SSH calls with
`(10.0.0.5, 22, root, toor)` and `(10.0.0.6, "", admin, "")`. -/
theorem doList_ssh (conf : Options) (hSSH : conf.SSH = true) (hU : conf.Username = "")
    (hP : conf.Password = "") (hPort : conf.Port = "") (hC : conf.Credentials = "") :
    (∀ ip port user pass : String, IsQuad ip.data → (∀ c ∈ port.data, IsDigit c) →
        (∀ c ∈ user.data, c ≠ ' ' ∧ c ≠ ':') → (∀ c ∈ pass.data, c ≠ ' ' ∧ c ≠ ':') →
        doList conf [ip ++ ":" ++ port ++ " " ++ (user ++ ":" ++ pass)] =
            [Event.SSHPreflight (ip ++ ":" ++ port) ip port user pass conf.Alert conf.OutputFile] ∧
          doList conf [ip ++ " " ++ (user ++ ":" ++ pass)] =
            [Event.SSHPreflight ip ip "" user pass conf.Alert conf.OutputFile]) ∧
      (∀ (line : String) (lines : List String),
        doList conf (line :: lines) = doLine conf line ++ doList conf lines) ∧
      doList conf ["10.0.0.5:22 root:toor", "10.0.0.6 admin:"] =
        [Event.SSHPreflight "10.0.0.5:22" "10.0.0.5" "22" "root" "toor" conf.Alert conf.OutputFile,
          Event.SSHPreflight "10.0.0.6" "10.0.0.6" "" "admin" "" conf.Alert conf.OutputFile] := by
  have hgen : ∀ ip port user pass : String, IsQuad ip.data → (∀ c ∈ port.data, IsDigit c) →
      (∀ c ∈ user.data, c ≠ ' ' ∧ c ≠ ':') → (∀ c ∈ pass.data, c ≠ ' ' ∧ c ≠ ':') →
      doLine conf (ip ++ ":" ++ port ++ " " ++ (user ++ ":" ++ pass)) =
          [Event.SSHPreflight (ip ++ ":" ++ port) ip port user pass conf.Alert conf.OutputFile] ∧
        doLine conf (ip ++ " " ++ (user ++ ":" ++ pass)) =
          [Event.SSHPreflight ip ip "" user pass conf.Alert conf.OutputFile] := by
    intro ip port user pass hip hport huser hpass
    have hi1 : ' ' ∉ ip.data := fun h => (IsQuad_mem _ hip _ h).1 rfl
    have hi2 : ':' ∉ ip.data := fun h => (IsQuad_mem _ hip _ h).2 rfl
    have hp1 : ' ' ∉ port.data := fun h => absurd (hport _ h) (by decide)
    have hp2 : ':' ∉ port.data := fun h => absurd (hport _ h) (by decide)
    have hu1 : ' ' ∉ user.data := fun h => (huser _ h).1 rfl
    have hu2 : ':' ∉ user.data := fun h => (huser _ h).2 rfl
    have hw1 : ' ' ∉ pass.data := fun h => (hpass _ h).1 rfl
    have hw2 : ':' ∉ pass.data := fun h => (hpass _ h).2 rfl
    have hcred : ' ' ∉ (user ++ ":" ++ pass).data := by
      simp [String.data_append, hu1, hw1]
    have hhost : ' ' ∉ (ip ++ ":" ++ port).data := by
      simp [String.data_append, hi1, hp1]
    have hq1 : HasQuad ip := ⟨[], ip.data, [], hip, by simp⟩
    have hq2 : HasQuad (ip ++ ":" ++ port) :=
      ⟨[], ip.data, ':' :: port.data, hip, by simp [String.data_append]⟩
    constructor
    · rw [doLine_ssh conf hSSH _ _ hq2 hhost hcred, GetIPPort_pair conf hPort ip port hi2 hp2,
        GetCreds_pair conf hU hP hC user pass hu2 hw2]
    · rw [doLine_ssh conf hSSH _ _ hq1 hi1 hcred, GetIPPort_plain conf hPort ip hi2,
        GetCreds_pair conf hU hP hC user pass hu2 hw2]
  have hquad : ∀ a b c d : List Char, IsGroup a → IsGroup b → IsGroup c → IsGroup d →
      IsQuad (a ++ '.' :: (b ++ '.' :: (c ++ '.' :: d))) :=
    fun a b c d ha hb hc hd => ⟨a, b, c, d, ha, hb, hc, hd, rfl⟩
  have hg : ∀ d : List Char, (1 ≤ d.length ∧ d.length ≤ 3 ∧ ∀ c ∈ d, '0' ≤ c ∧ c ≤ '9') →
      IsGroup d := fun d h => h
  refine ⟨?_, fun _ _ => rfl, ?_⟩
  · intro ip port user pass hip hport huser hpass
    obtain ⟨h1, h2⟩ := hgen ip port user pass hip hport huser hpass
    simp only [doList, List.append_nil]
    exact ⟨h1, h2⟩
  · have e1 := (hgen "10.0.0.5" "22" "root" "toor"
      (hquad ['1', '0'] ['0'] ['0'] ['5'] (hg _ (by decide)) (hg _ (by decide))
        (hg _ (by decide)) (hg _ (by decide)))
      (by decide) (by decide) (by decide)).1
    have e2 := (hgen "10.0.0.6" "" "admin" ""
      (hquad ['1', '0'] ['0'] ['0'] ['6'] (hg _ (by decide)) (hg _ (by decide))
        (hg _ (by decide)) (hg _ (by decide)))
      (by decide) (by decide) (by decide)).2
    have s1 : ("10.0.0.5" ++ ":" ++ "22" ++ " " ++ ("root" ++ ":" ++ "toor") : String) =
        "10.0.0.5:22 root:toor" := by decide
    have s2 : ("10.0.0.6" ++ " " ++ ("admin" ++ ":" ++ "") : String) = "10.0.0.6 admin:" := by
      decide
    have s3 : ("10.0.0.5" ++ ":" ++ "22" : String) = "10.0.0.5:22" := by decide
    rw [s1, s3] at e1
    rw [s2] at e2
    simp only [doList, e1, e2]
    rfl

/-- Witness of `doList_ssh`: the two lines of the scenario, under the SSH flag alone. -/
theorem doList_ssh_witness :
    doList { Options.blank with SSH := true } ["10.0.0.5:22 root:toor", "10.0.0.6 admin:"] =
      [Event.SSHPreflight "10.0.0.5:22" "10.0.0.5" "22" "root" "toor" "" "",
        Event.SSHPreflight "10.0.0.6" "10.0.0.6" "" "admin" "" "" ""] :=
  (doList_ssh { Options.blank with SSH := true } rfl rfl rfl rfl rfl).2.2

/-! ### Addresses as numbers -/

theorem land_maskByte : ∀ x < 256, ∀ k < 9,
    x &&& (0xff ^^^ (0xff >>> k)) = x / 2 ^ (8 - k) * 2 ^ (8 - k) := by
  decide!

theorem ipOfVal_ipVal (a b c d : Nat) (ha : a < 256) (hb : b < 256) (hc : c < 256)
    (hd : d < 256) : ipOfVal (ipVal [a, b, c, d]) = [a, b, c, d] := by
  simp only [ipOfVal, ipVal, List.cons.injEq, and_true]
  refine ⟨?_, ?_, ?_, ?_⟩ <;> omega

theorem ipVal_ipOfVal (v : Nat) : ipVal (ipOfVal v) = v % 4294967296 := by
  simp only [ipOfVal, ipVal]
  omega

theorem ipOfVal_inj (v w : Nat) (hv : v < 4294967296) (hw : w < 4294967296)
    (h : ipOfVal v = ipOfVal w) : v = w := by
  have := congrArg ipVal h
  rw [ipVal_ipOfVal, ipVal_ipOfVal] at this
  omega

set_option maxHeartbeats 2000000 in
theorem inc_ipOfVal (v : Nat) : inc (ipOfVal v) = ipOfVal (v + 1) := by
  simp only [inc, ipOfVal, List.reverse_cons, List.reverse_nil, List.nil_append,
    List.cons_append, incRev]
  split_ifs <;> simp only [List.reverse_cons, List.reverse_nil, List.nil_append,
    List.cons_append, List.cons.injEq, and_true] <;> refine ⟨?_, ?_, ?_, ?_⟩ <;> omega

theorem Mask_IPv4 (a b c d m0 m1 m2 m3 : Nat) :
    Mask (IPv4 a b c d) [m0, m1, m2, m3] = [a &&& m0, b &&& m1, c &&& m2, d &&& m3] := by
  have h1 : (IPv4 a b c d).length = 16 := rfl
  have h2 : (IPv4 a b c d).take 12 = v4InV6Prefix := rfl
  have h3 : (IPv4 a b c d).drop 12 = [a, b, c, d] := rfl
  simp only [Mask, h1, h2, h3, List.length_cons, List.length_nil]
  simp

theorem CIDRMask_32 (p : Nat) (hp : p ≤ 32) : CIDRMask p 32 = maskBytes 4 p := by
  have h : ¬ 32 < p := by omega
  simp [CIDRMask, h]

theorem Contains_four (n0 n1 n2 n3 m0 m1 m2 m3 x0 x1 x2 x3 : Nat) :
    IPNet.Contains ⟨[n0, n1, n2, n3], [m0, m1, m2, m3]⟩ [x0, x1, x2, x3] = true ↔
      [n0 &&& m0, n1 &&& m1, n2 &&& m2, n3 &&& m3] =
        [x0 &&& m0, x1 &&& m1, x2 &&& m2, x3 &&& m3] := by
  have h4 : ∀ l : List Nat, l.length = 4 → To4 l = l := by
    intro l hl
    simp [To4, hl]
  have e1 : To4 [n0, n1, n2, n3] = [n0, n1, n2, n3] := h4 _ rfl
  have e2 : To4 [x0, x1, x2, x3] = [x0, x1, x2, x3] := h4 _ rfl
  simp only [IPNet.Contains, networkNumberAndMask, e1, e2, sameUnderMask]
  simp

theorem maskBytes_four (p : Nat) :
    maskBytes 4 p =
      [0xff ^^^ (0xff >>> min p 8), 0xff ^^^ (0xff >>> min (p - 8) 8),
        0xff ^^^ (0xff >>> min (p - 16) 8), 0xff ^^^ (0xff >>> min (p - 24) 8)] := by
  have step : ∀ l n, maskBytes (l + 1) n =
      (0xff ^^^ (0xff >>> min n 8)) :: maskBytes l (n - 8) := by
    intro l n
    by_cases h : 8 ≤ n
    · have hm : min n 8 = 8 := by omega
      simp [maskBytes, h, hm]
    · have hm : min n 8 = n := by omega
      have h0 : n - 8 = 0 := by omega
      simp [maskBytes, h, hm, h0]
  rw [show (4 : Nat) = 3 + 1 from rfl, step, show (3 : Nat) = 2 + 1 from rfl, step,
    show (2 : Nat) = 1 + 1 from rfl, step, show (1 : Nat) = 0 + 1 from rfl, step, maskBytes]
  have e1 : p - 8 - 8 = p - 16 := by omega
  have e2 : p - 16 - 8 = p - 24 := by omega
  rw [e1, e2]

theorem land_mask (x p o : Nat) (hx : x < 256) :
    x &&& (0xff ^^^ (0xff >>> min (p - o) 8)) =
      x / 2 ^ (8 - min (p - o) 8) * 2 ^ (8 - min (p - o) 8) :=
  land_maskByte x hx _ (by omega)

set_option maxHeartbeats 4000000 in
theorem land_four (a b c d p : Nat) (ha : a < 256) (hb : b < 256) (hc : c < 256)
    (hd : d < 256) (hp : p ≤ 32) :
    [a &&& (0xff ^^^ (0xff >>> min p 8)), b &&& (0xff ^^^ (0xff >>> min (p - 8) 8)),
        c &&& (0xff ^^^ (0xff >>> min (p - 16) 8)), d &&& (0xff ^^^ (0xff >>> min (p - 24) 8))] =
      ipOfVal (ipVal [a, b, c, d] / 2 ^ (32 - p) * 2 ^ (32 - p)) := by
  have h0 := land_mask a p 0 ha
  have h1 := land_mask b p 8 hb
  have h2 := land_mask c p 16 hc
  have h3 := land_mask d p 24 hd
  simp only [Nat.sub_zero] at h0
  rw [h0, h1, h2, h3]
  simp only [ipOfVal, ipVal, List.cons.injEq, and_true]
  clear h0 h1 h2 h3
  interval_cases p <;> norm_num <;> refine ⟨?_, ?_, ?_, ?_⟩ <;> omega

theorem mask_val (a b c d p : Nat) (ha : a < 256) (hb : b < 256) (hc : c < 256)
    (hd : d < 256) (hp : p ≤ 32) :
    Mask (IPv4 a b c d) (CIDRMask p 32) =
      ipOfVal (ipVal [a, b, c, d] / 2 ^ (32 - p) * 2 ^ (32 - p)) := by
  rw [CIDRMask_32 p hp, maskBytes_four, Mask_IPv4, land_four a b c d p ha hb hc hd hp]

theorem ipOfVal_land (v p : Nat) (hp : p ≤ 32) :
    (match ipOfVal v with
      | [x0, x1, x2, x3] =>
        [x0 &&& (0xff ^^^ (0xff >>> min p 8)), x1 &&& (0xff ^^^ (0xff >>> min (p - 8) 8)),
          x2 &&& (0xff ^^^ (0xff >>> min (p - 16) 8)),
          x3 &&& (0xff ^^^ (0xff >>> min (p - 24) 8))]
      | _ => []) = ipOfVal (v % 4294967296 / 2 ^ (32 - p) * 2 ^ (32 - p)) := by
  simp only [ipOfVal]
  rw [land_four _ _ _ _ p (Nat.mod_lt _ (by decide)) (Nat.mod_lt _ (by decide))
    (Nat.mod_lt _ (by decide)) (Nat.mod_lt _ (by decide)) hp]
  have h := ipVal_ipOfVal v
  simp only [ipOfVal] at h
  rw [h]
  rfl

theorem contains_val (p : Nat) (hp : p ≤ 32) (n v : Nat) :
    IPNet.Contains ⟨ipOfVal n, CIDRMask p 32⟩ (ipOfVal v) = true ↔
      n % 4294967296 / 2 ^ (32 - p) = v % 4294967296 / 2 ^ (32 - p) := by
  have hn := ipOfVal_land n p hp
  have hv := ipOfVal_land v p hp
  rw [CIDRMask_32 p hp, maskBytes_four]
  simp only [ipOfVal] at hn hv ⊢
  rw [Contains_four, hn, hv]
  have hS : 0 < 2 ^ (32 - p) := Nat.two_pow_pos _
  constructor
  · intro h
    have h2 := ipOfVal_inj _ _
      (lt_of_le_of_lt (Nat.div_mul_le_self _ _) (Nat.mod_lt _ (by decide)))
      (lt_of_le_of_lt (Nat.div_mul_le_self _ _) (Nat.mod_lt _ (by decide))) h
    exact Nat.eq_of_mul_eq_mul_right hS h2
  · intro h
    rw [h]

/-! ### The parser -/

theorem parseFields_spec (k : Nat) (first : Bool) (s : List Char) (l : List Nat)
    (h : parseFields k first s = some l) : l.length = k ∧ ∀ x ∈ l, x < 256 := by
  induction k generalizing first s l with
  | zero =>
    simp only [parseFields] at h
    split_ifs at h
    cases h
    simp
  | succ k ih =>
    simp only [parseFields] at h
    split_ifs at h with h1
    cases hq : skipDot first s with
    | none => simp [hq] at h
    | some s1 =>
      simp only [hq] at h
      split_ifs at h with h2
      cases hrec : parseFields k false (List.drop (dtoi s1).2.1 s1) with
      | none => simp [hrec] at h
      | some t =>
        simp only [hrec, Option.map_some', Option.some.injEq] at h
        obtain ⟨ht1, ht2⟩ := ih _ _ _ hrec
        subst h
        refine ⟨by simp [ht1], ?_⟩
        intro x hx
        rcases List.mem_cons.mp hx with hx | hx
        · simp only [Bool.or_eq_true, Bool.not_eq_eq_eq_not, Bool.not_true, decide_eq_true_eq,
            not_or, not_lt] at h2
          omega
        · exact ht2 x hx

theorem parseIPv4_spec (s : List Char) (h : parseIPv4 s ≠ []) :
    ∃ a b c d, a < 256 ∧ b < 256 ∧ c < 256 ∧ d < 256 ∧ parseIPv4 s = IPv4 a b c d := by
  unfold parseIPv4 at h ⊢
  cases hf : parseFields 4 true s with
  | none => simp [hf] at h
  | some l =>
    obtain ⟨hl, hb⟩ := parseFields_spec _ _ _ _ hf
    match l, hl, hb with
    | [a, b, c, d], _, hb =>
      exact ⟨a, b, c, d, hb a (by simp), hb b (by simp), hb c (by simp), hb d (by simp), rfl⟩

theorem ParseCIDR_spec (cidr : String) (ip : IP) (ipnet : IPNet)
    (h : ParseCIDR cidr = some (ip, ipnet)) :
    ∃ a b c d p, a < 256 ∧ b < 256 ∧ c < 256 ∧ d < 256 ∧ p ≤ 32 ∧ ip = IPv4 a b c d ∧
      ipnet = ⟨Mask (IPv4 a b c d) (CIDRMask p 32), CIDRMask p 32⟩ := by
  unfold ParseCIDR at h
  split at h
  · cases h
  · rename_i addr mask _
    simp only at h
    split_ifs at h with hc
    simp only [not_or, not_lt, Decidable.not_not] at hc
    obtain ⟨hip, _, _, hp⟩ := hc
    obtain ⟨a, b, c, d, ha, hb, hc, hd, he⟩ := parseIPv4_spec addr hip
    simp only [Option.some.injEq, Prod.mk.injEq] at h
    refine ⟨a, b, c, d, (dtoi mask).1, ha, hb, hc, hd, by omega, ?_, ?_⟩
    · rw [← h.1, he]
    · rw [← h.2, he]

theorem maskBytes_inj : ∀ p < 33, ∀ q < 33, maskBytes 4 p = maskBytes 4 q → p = q := by
  decide!

/-! ### The loop -/

theorem walk_block (ipnet : IPNet) (n size : Nat)
    (hin : ∀ k < size, ipnet.Contains (ipOfVal (n + k)) = true)
    (hout : ipnet.Contains (ipOfVal (n + size)) = false) :
    ∀ (j k : Nat) (acc : List String) (extra : Nat), k + j = size →
      walk ipnet (j + 1 + extra) (ipOfVal (n + k)) acc =
        some (acc ++ (List.range j).map (fun i => IPString (ipOfVal (n + k + i)))) := by
  intro j
  induction j with
  | zero =>
    intro k acc extra hk
    have hk2 : k = size := by omega
    subst hk2
    have e : 0 + 1 + extra = extra + 1 := by omega
    rw [e, walk]
    simp [hout]
  | succ j ih =>
    intro k acc extra hk
    have hc := hin k (by omega)
    have e : j + 1 + 1 + extra = (j + 1 + extra) + 1 := by omega
    rw [e, walk]
    simp only [hc, if_true, inc_ipOfVal]
    have e2 : n + k + 1 = n + (k + 1) := by omega
    rw [e2, ih (k + 1) _ extra (by omega)]
    simp only [List.range_succ_eq_map, List.map_cons, List.map_map, List.append_assoc,
      List.singleton_append, Nat.add_zero, Option.some.injEq, List.append_cancel_left_eq,
      List.cons.injEq, true_and]
    apply List.map_congr_left
    intro i _
    simp only [Function.comp]
    congr 2
    omega

theorem walk_forever (ipnet : IPNet) (hin : ∀ v, ipnet.Contains (ipOfVal v) = true) :
    ∀ (fuel v : Nat) (acc : List String), walk ipnet fuel (ipOfVal v) acc = none := by
  intro fuel
  induction fuel with
  | zero => intro v acc; rfl
  | succ fuel ih =>
    intro v acc
    rw [walk]
    simp only [hin v, if_true, inc_ipOfVal]
    exact ih _ _

set_option maxHeartbeats 4000000 in
theorem block_arith (p v k : Nat) (hp1 : 1 ≤ p) (hp : p ≤ 32) (hv : v < 4294967296) :
    (k < 2 ^ (32 - p) →
        (v / 2 ^ (32 - p) * 2 ^ (32 - p)) % 4294967296 / 2 ^ (32 - p) =
          (v / 2 ^ (32 - p) * 2 ^ (32 - p) + k) % 4294967296 / 2 ^ (32 - p)) ∧
      (v / 2 ^ (32 - p) * 2 ^ (32 - p)) % 4294967296 / 2 ^ (32 - p) ≠
        (v / 2 ^ (32 - p) * 2 ^ (32 - p) + 2 ^ (32 - p)) % 4294967296 / 2 ^ (32 - p) ∧
      v / 2 ^ (32 - p) * 2 ^ (32 - p) + 2 ^ (32 - p) ≤ 4294967296 := by
  interval_cases p <;> norm_num <;> omega

/-! ### Dotted decimal text is faithful -/

theorem digits_no_dot : ∀ a < 256, '.' ∉ Nat.toDigits 10 a := by
  decide!

theorem digits_value : ∀ a < 256,
    (Nat.toDigits 10 a).foldl (fun n c => n * 10 + (c.toNat - 48)) 0 = a := by
  decide!

theorem digits_inj (a b : Nat) (ha : a < 256) (hb : b < 256)
    (h : Nat.toDigits 10 a = Nat.toDigits 10 b) : a = b := by
  rw [← digits_value a ha, ← digits_value b hb, h]

theorem cut_unique (l1 l2 r1 r2 : List Char) (h1 : '.' ∉ l1) (h2 : '.' ∉ l2)
    (h : l1 ++ '.' :: r1 = l2 ++ '.' :: r2) : l1 = l2 ∧ r1 = r2 := by
  induction l1 generalizing l2 with
  | nil =>
    cases l2 with
    | nil => simpa using h
    | cons c t =>
      simp only [List.nil_append, List.cons_append, List.cons.injEq] at h
      exact absurd (h.1 ▸ List.mem_cons_self _ _) h2
  | cons c t ih =>
    cases l2 with
    | nil =>
      simp only [List.nil_append, List.cons_append, List.cons.injEq] at h
      exact absurd (h.1 ▸ List.mem_cons_self _ _) h1
    | cons c2 t2 =>
      simp only [List.cons_append, List.cons.injEq] at h
      obtain ⟨e1, e2⟩ := ih t2 (fun m => h1 (List.mem_cons_of_mem _ m))
        (fun m => h2 (List.mem_cons_of_mem _ m)) h.2
      exact ⟨by rw [h.1, e1], e2⟩

theorem IPString_four (a b c d : Nat) :
    (IPString [a, b, c, d]).data =
      Nat.toDigits 10 a ++ '.' :: (Nat.toDigits 10 b ++ '.' ::
        (Nat.toDigits 10 c ++ '.' :: Nat.toDigits 10 d)) := by
  have h : IPString [a, b, c, d] =
      toString a ++ "." ++ toString b ++ "." ++ toString c ++ "." ++ toString d := by
    simp [IPString, To4]
  rw [h]
  simp only [String.data_append, List.append_assoc]
  rfl

theorem IPString_inj (a b c d a2 b2 c2 d2 : Nat) (ha : a < 256) (hb : b < 256)
    (hc : c < 256) (hd : d < 256) (ha2 : a2 < 256) (hb2 : b2 < 256) (hc2 : c2 < 256)
    (hd2 : d2 < 256) (h : IPString [a, b, c, d] = IPString [a2, b2, c2, d2]) :
    [a, b, c, d] = [a2, b2, c2, d2] := by
  have hdata := congrArg String.data h
  rw [IPString_four, IPString_four] at hdata
  obtain ⟨e1, r1⟩ := cut_unique _ _ _ _ (digits_no_dot a ha) (digits_no_dot a2 ha2) hdata
  obtain ⟨e2, r2⟩ := cut_unique _ _ _ _ (digits_no_dot b hb) (digits_no_dot b2 hb2) r1
  obtain ⟨e3, e4⟩ := cut_unique _ _ _ _ (digits_no_dot c hc) (digits_no_dot c2 hc2) r2
  rw [digits_inj a a2 ha ha2 e1, digits_inj b b2 hb hb2 e2, digits_inj c c2 hc hc2 e3,
    digits_inj d d2 hd hd2 e4]

theorem IPString_val_inj (v w : Nat) (hv : v < 4294967296) (hw : w < 4294967296)
    (h : IPString (ipOfVal v) = IPString (ipOfVal w)) : v = w := by
  apply ipOfVal_inj v w hv hw
  simp only [ipOfVal] at h ⊢
  exact IPString_inj _ _ _ _ _ _ _ _ (Nat.mod_lt _ (by decide)) (Nat.mod_lt _ (by decide))
    (Nat.mod_lt _ (by decide)) (Nat.mod_lt _ (by decide)) (Nat.mod_lt _ (by decide))
    (Nat.mod_lt _ (by decide)) (Nat.mod_lt _ (by decide)) (Nat.mod_lt _ (by decide)) h

theorem iterate_inc (k n : Nat) : inc^[k] (ipOfVal n) = ipOfVal (n + k) := by
  induction k generalizing n with
  | zero => rfl
  | succ k ih =>
    rw [Function.iterate_succ_apply, inc_ipOfVal, ih]
    congr 1
    omega

/-! ### C1, C2: the CIDR enumerator -/

theorem slice_range (f : Nat → String) (m : Nat) :
    (((List.range (m + 2)).map f).take ((List.range (m + 2)).map f).length.pred).drop 1 =
      (List.range m).map (fun i => f (i + 1)) := by
  simp only [List.length_map, List.length_range, Nat.pred_eq_sub_one, Nat.add_sub_cancel]
  rw [← List.map_take, List.take_range, ← List.map_drop]
  have hmin : min (m + 2 - 1) (m + 2) = m + 1 := by omega
  rw [hmin, List.range_succ_eq_map]
  simp [List.map_map, Function.comp]

theorem enumerate (cidr : String) (ip : IP) (ipnet : IPNet) (p : Nat)
    (hparse : ParseCIDR cidr = some (ip, ipnet)) (hmask : ipnet.Mask = CIDRMask p 32)
    (h1 : 1 ≤ p) (h31 : p ≤ 31) :
    ∃ n, ipnet.IP = ipOfVal n ∧ n = ipVal (To4 ip) / 2 ^ (32 - p) * 2 ^ (32 - p) ∧
      n + 2 ^ (32 - p) ≤ 4294967296 ∧
      ∀ fuel, 2 ^ (32 - p) < fuel →
        getIPsFromCIDR fuel cidr =
          Outcome.ok ((List.range (2 ^ (32 - p) - 2)).map
            (fun i => IPString (ipOfVal (n + i + 1)))) := by
  obtain ⟨a, b, c, d, q, ha, hb, hc, hd, hq, hip, hnet⟩ := ParseCIDR_spec cidr ip ipnet hparse
  have hqp : q = p := by
    have hm : CIDRMask q 32 = CIDRMask p 32 := by rw [← hmask, hnet]
    rw [CIDRMask_32 q hq, CIDRMask_32 p (by omega)] at hm
    exact maskBytes_inj q (by omega) p (by omega) hm
  subst hqp
  have hv : ipVal [a, b, c, d] < 4294967296 := by
    simp only [ipVal]
    omega
  have hto4 : To4 ip = [a, b, c, d] := by
    rw [hip]
    rfl
  rw [mask_val a b c d q ha hb hc hd hq] at hnet
  have harith := fun k => block_arith q (ipVal [a, b, c, d]) k h1 hq hv
  refine ⟨ipVal [a, b, c, d] / 2 ^ (32 - q) * 2 ^ (32 - q), by rw [hnet], by rw [hto4],
    (harith 0).2.2, ?_⟩
  intro fuel hfuel
  have hin : ∀ k < 2 ^ (32 - q), ipnet.Contains
      (ipOfVal (ipVal [a, b, c, d] / 2 ^ (32 - q) * 2 ^ (32 - q) + k)) = true := by
    intro k hk
    rw [hnet, contains_val q hq]
    exact (harith k).1 hk
  have hout : ipnet.Contains
      (ipOfVal (ipVal [a, b, c, d] / 2 ^ (32 - q) * 2 ^ (32 - q) + 2 ^ (32 - q))) = false := by
    cases hcon : ipnet.Contains
        (ipOfVal (ipVal [a, b, c, d] / 2 ^ (32 - q) * 2 ^ (32 - q) + 2 ^ (32 - q))) with
    | false => rfl
    | true =>
      rw [hnet, contains_val q hq] at hcon
      exact absurd hcon (harith 0).2.1
  have hw := walk_block ipnet _ _ hin hout (2 ^ (32 - q)) 0 [] (fuel - 2 ^ (32 - q) - 1)
    (by omega)
  have hf : 2 ^ (32 - q) + 1 + (fuel - 2 ^ (32 - q) - 1) = fuel := by omega
  rw [hf] at hw
  have hstart : Mask ip ipnet.Mask =
      ipOfVal (ipVal [a, b, c, d] / 2 ^ (32 - q) * 2 ^ (32 - q) + 0) := by
    rw [hip, hmask, mask_val a b c d q ha hb hc hd hq]
    rfl
  have hS : 2 ≤ 2 ^ (32 - q) := by
    have : 2 ^ 1 ≤ 2 ^ (32 - q) := Nat.pow_le_pow_right (by decide) (by omega)
    simpa using this
  obtain ⟨m, hm⟩ : ∃ m, 2 ^ (32 - q) = m + 2 := ⟨2 ^ (32 - q) - 2, by omega⟩
  simp only [getIPsFromCIDR, hparse, hstart, hw, List.nil_append]
  rw [hm]
  have hlen : ((List.range (m + 2)).map
      (fun i => IPString (ipOfVal (ipVal [a, b, c, d] / (m + 2) * (m + 2) + 0 + i)))).length =
      m + 2 := by simp
  have hcond : 1 ≤ m + 2 - 1 ∧ 1 ≤ m + 2 := by omega
  simp only [hlen, hcond, and_self, if_true, Nat.add_sub_cancel]
  have hs := slice_range
    (fun i => IPString (ipOfVal (ipVal [a, b, c, d] / (m + 2) * (m + 2) + 0 + i))) m
  simp only [hlen, Nat.pred_eq_sub_one] at hs
  rw [hs]
  congr 1

/-- C1 (as the code has it): for a valid IPv4 CIDR text with prefix length `p` from 1 to
31, `getIPsFromCIDR` terminates (any fuel above the block size suffices) and returns
exactly `2 ^ (32 - p) - 2` addresses; for a `/30` these are 2 addresses. -/
theorem getIPsFromCIDR_count (cidr : String) (ip : IP) (ipnet : IPNet) (p : Nat)
    (hparse : ParseCIDR cidr = some (ip, ipnet)) (hmask : ipnet.Mask = CIDRMask p 32)
    (h1 : 1 ≤ p) (h31 : p ≤ 31) :
    ∃ ips, (∀ fuel, 2 ^ (32 - p) < fuel → getIPsFromCIDR fuel cidr = Outcome.ok ips) ∧
      ips.length = 2 ^ (32 - p) - 2 ∧ (p = 30 → ips.length = 2) := by
  obtain ⟨n, _, _, _, hrun⟩ := enumerate cidr ip ipnet p hparse hmask h1 h31
  refine ⟨_, hrun, by simp, ?_⟩
  intro h30
  subst h30
  simp

/-- Witness of `getIPsFromCIDR_count`: the block `10.0.0.5/30`. -/
theorem getIPsFromCIDR_count_witness :
    ParseCIDR "10.0.0.5/30" =
        some (IPv4 10 0 0 5, ⟨[10, 0, 0, 4], [255, 255, 255, 252]⟩) ∧
      ∃ ips, (∀ fuel, 2 ^ (32 - 30) < fuel →
          getIPsFromCIDR fuel "10.0.0.5/30" = Outcome.ok ips) ∧
        ips.length = 2 ^ (32 - 30) - 2 ∧ (30 = 30 → ips.length = 2) :=
  ⟨by decide,
    getIPsFromCIDR_count "10.0.0.5/30" (IPv4 10 0 0 5) ⟨[10, 0, 0, 4], [255, 255, 255, 252]⟩ 30
      (by decide) (by decide) (by decide) (by decide)⟩

/-- C1 fails as stated at both ends of the range: on a `/0` block the loop never ends,
whatever the fuel, and on a `/32` block the run never returns a list (the final slice
panics once the loop has ended). -/
theorem getIPsFromCIDR_count_counterexample :
    (∀ fuel, getIPsFromCIDR fuel "0.0.0.0/0" = Outcome.outOfFuel) ∧
      (∀ fuel ips, getIPsFromCIDR fuel "10.0.0.1/32" ≠ Outcome.ok ips) ∧
      (∀ fuel, 2 ≤ fuel → getIPsFromCIDR fuel "10.0.0.1/32" = Outcome.panic) := by
  have hp0 : ParseCIDR "0.0.0.0/0" = some (IPv4 0 0 0 0, ⟨ipOfVal 0, CIDRMask 0 32⟩) := by
    decide
  have hp32 : ParseCIDR "10.0.0.1/32" =
      some (IPv4 10 0 0 1, ⟨[10, 0, 0, 1], [255, 255, 255, 255]⟩) := by
    decide
  have hpanic : ∀ fuel, getIPsFromCIDR (fuel + 2) "10.0.0.1/32" = Outcome.panic := by
    intro fuel
    have hm : Mask (IPv4 10 0 0 1) [255, 255, 255, 255] = [10, 0, 0, 1] := by decide
    have hc1 : IPNet.Contains ⟨[10, 0, 0, 1], [255, 255, 255, 255]⟩ [10, 0, 0, 1] = true := by
      decide
    have hi : inc [10, 0, 0, 1] = [10, 0, 0, 2] := by decide
    have hc2 : IPNet.Contains ⟨[10, 0, 0, 1], [255, 255, 255, 255]⟩ [10, 0, 0, 2] = false := by
      decide
    simp [getIPsFromCIDR, hp32, hm, walk, hc1, hi, hc2]
  refine ⟨?_, ?_, ?_⟩
  · intro fuel
    have hin : ∀ v, IPNet.Contains ⟨ipOfVal 0, CIDRMask 0 32⟩ (ipOfVal v) = true := by
      intro v
      rw [contains_val 0 (by decide)]
      simp only [Nat.sub_zero, Nat.reducePow, Nat.zero_mod, Nat.zero_div]
      omega
    have hm : Mask (IPv4 0 0 0 0) (CIDRMask 0 32) = ipOfVal 0 := by decide
    simp [getIPsFromCIDR, hp0, hm, walk_forever _ hin]
  · intro fuel ips
    match fuel with
    | 0 => simp [getIPsFromCIDR, hp32, walk]
    | 1 =>
      have hm : Mask (IPv4 10 0 0 1) [255, 255, 255, 255] = [10, 0, 0, 1] := by decide
      have hc1 : IPNet.Contains ⟨[10, 0, 0, 1], [255, 255, 255, 255]⟩ [10, 0, 0, 1] = true := by
        decide
      simp [getIPsFromCIDR, hp32, hm, walk, hc1]
    | fuel + 2 =>
      rw [hpanic fuel]
      exact fun h => Outcome.noConfusion h
  · intro fuel hfuel
    obtain ⟨k, rfl⟩ : ∃ k, fuel = k + 2 := ⟨fuel - 2, by omega⟩
    exact hpanic k

/-- C2: for a valid IPv4 CIDR text with prefix length `p` from 1 to 30, with `n` the
network address (the given address with its low `32 - p` bits cleared) and
`n + 2 ^ (32 - p) - 1` the broadcast address, `getIPsFromCIDR` returns the texts of the
addresses `n + 1`, `n + 2`, ... in this order, the `i`-th being `inc` applied `i + 1`
times to the network address; an address is in the result exactly when it lies strictly
between the network and the broadcast address, no text occurs twice, and neither the
network nor the broadcast address occurs. -/
theorem getIPsFromCIDR_addresses (cidr : String) (ip : IP) (ipnet : IPNet) (p : Nat)
    (hparse : ParseCIDR cidr = some (ip, ipnet)) (hmask : ipnet.Mask = CIDRMask p 32)
    (h1 : 1 ≤ p) (h30 : p ≤ 30) :
    ∃ n ips, ipnet.IP = ipOfVal n ∧ n = ipVal (To4 ip) / 2 ^ (32 - p) * 2 ^ (32 - p) ∧
      (∀ fuel, 2 ^ (32 - p) < fuel → getIPsFromCIDR fuel cidr = Outcome.ok ips) ∧
      ips = (List.range (2 ^ (32 - p) - 2)).map (fun i => IPString (ipOfVal (n + i + 1))) ∧
      ips = (List.range (2 ^ (32 - p) - 2)).map (fun i => IPString (inc^[i + 1] ipnet.IP)) ∧
      (∀ v, v < 4294967296 →
        (IPString (ipOfVal v) ∈ ips ↔ n < v ∧ v < n + 2 ^ (32 - p) - 1)) ∧
      ips.Nodup ∧
      IPString ipnet.IP ∉ ips ∧
      IPString (ipOfVal (n + 2 ^ (32 - p) - 1)) ∉ ips := by
  obtain ⟨n, hnet, hn, hle, hrun⟩ := enumerate cidr ip ipnet p hparse hmask h1 (by omega)
  have hS : 4 ≤ 2 ^ (32 - p) := by
    have : 2 ^ 2 ≤ 2 ^ (32 - p) := Nat.pow_le_pow_right (by decide) (by omega)
    simpa using this
  have hmem : ∀ v, v < 4294967296 →
      (IPString (ipOfVal v) ∈
          (List.range (2 ^ (32 - p) - 2)).map (fun i => IPString (ipOfVal (n + i + 1))) ↔
        n < v ∧ v < n + 2 ^ (32 - p) - 1) := by
    intro v hv
    simp only [List.mem_map, List.mem_range]
    constructor
    · rintro ⟨i, hi, he⟩
      have := IPString_val_inj _ _ (by omega) hv he
      omega
    · rintro ⟨hlo, hhi⟩
      refine ⟨v - n - 1, by omega, ?_⟩
      congr 2
      omega
  refine ⟨n, _, hnet, hn, hrun, rfl, ?_, hmem, ?_, ?_, ?_⟩
  · apply List.map_congr_left
    intro i _
    rw [hnet, iterate_inc]
    congr 2
  · apply List.Nodup.map_on
    · intro i hi j hj he
      have hi2 := List.mem_range.mp hi
      have hj2 := List.mem_range.mp hj
      have := IPString_val_inj _ _ (by omega) (by omega) he
      omega
    · exact List.nodup_range _
  · rw [hnet]
    intro hin
    have := (hmem n (by omega)).mp hin
    omega
  · intro hin
    have := (hmem (n + 2 ^ (32 - p) - 1) (by omega)).mp hin
    omega

/-- Witness of `getIPsFromCIDR_addresses`: the block `10.0.0.5/30`, whose network address
is `10.0.0.4` and whose broadcast address is `10.0.0.7`. -/
theorem getIPsFromCIDR_addresses_witness :
    getIPsFromCIDR 5 "10.0.0.5/30" = Outcome.ok ["10.0.0.5", "10.0.0.6"] ∧
      ∃ n ips, ([10, 0, 0, 4] : IP) = ipOfVal n ∧
        n = ipVal (To4 (IPv4 10 0 0 5)) / 2 ^ (32 - 30) * 2 ^ (32 - 30) ∧
        (∀ fuel, 2 ^ (32 - 30) < fuel → getIPsFromCIDR fuel "10.0.0.5/30" = Outcome.ok ips) ∧
        ips = (List.range (2 ^ (32 - 30) - 2)).map (fun i => IPString (ipOfVal (n + i + 1))) ∧
        ips = (List.range (2 ^ (32 - 30) - 2)).map
          (fun i => IPString (inc^[i + 1] ([10, 0, 0, 4] : IP))) ∧
        (∀ v, v < 4294967296 →
          (IPString (ipOfVal v) ∈ ips ↔ n < v ∧ v < n + 2 ^ (32 - 30) - 1)) ∧
        ips.Nodup ∧
        IPString ([10, 0, 0, 4] : IP) ∉ ips ∧
        IPString (ipOfVal (n + 2 ^ (32 - 30) - 1)) ∉ ips :=
  ⟨by decide,
    getIPsFromCIDR_addresses "10.0.0.5/30" (IPv4 10 0 0 5)
      ⟨[10, 0, 0, 4], [255, 255, 255, 252]⟩ 30 (by decide) (by decide) (by decide) (by decide)⟩

end Divinity
